import Mathlib

/-!
# Verification of the alcibiades chess engine core

A shallow embedding, in Lean 4, of the parts of the `alcibiades` chess
engine that the specification's claims are about:

* bitboard primitives and the board-geometry tables (`bitsets.rs` and the
  geometry module are not part of the source tree given to us, so they are
  modelled from the specification, section 4.1);
* `attacks_to` and `piece_attacks_from` (src/position/board.rs);
* the `legal_dests` computation of `generate_pseudolegal_moves`
  (src/position/board.rs, lines 108-132);
* the static exchange evaluator `calc_see` (src/board/mod.rs, lines 303-406);
* the packed 64-bit move representation (src/chess_move.rs);
* `MoveStack::remove_best_move` (src/chess_move.rs, lines 443-470);
* the transposition table `StdHashTable` (src/stock/std_hash_table.rs);
* the PVS move loop of `Search::run` (src/engine/search.rs, lines 79-161);
* the aspiration-window machinery (src/search/deepening.rs and
  src/search/mod.rs).

Machine integers are modelled as `Nat` restricted to 64 bits where
overflow matters; `Value` (`i16`/`isize` arithmetic that stays far from
the overflow boundaries in the verified scenarios) is modelled as `Int`.
-/

namespace Alcibiades

/-! ## Bitboard primitives

`bitsets.rs` is not under `src/`.  The primitives below are modelled from
the specification (section 3, "Bitboard. 64-bit set of squares. Square
index 0..63") and from the evident semantics of the helper names used by
the source files that are present. -/

/-- The piece-type constants, asserted by
`test_piece_type_constants_constraints` in src/position/board.rs. -/
def KING : Nat := 0

def QUEEN : Nat := 1

def ROOK : Nat := 2

def BISHOP : Nat := 3

def KNIGHT : Nat := 4

def PAWN : Nat := 5

def NO_PIECE : Nat := 6

def WHITE : Nat := 0

def BLACK : Nat := 1

/-- `UNIVERSAL_SET`: the bitboard with all 64 bits set. -/
def UNIVERSAL_SET : Nat := 2 ^ 64 - 1

/-- `EMPTY_SET`: the empty bitboard. -/
def EMPTY_SET : Nat := 0

/-- The 64-bit bitwise complement (Rust `!x` on a `u64`). -/
def compl64 (x : Nat) : Nat := UNIVERSAL_SET ^^^ x

/-- Fuel-driven helper for `lowBit`: counts the trailing zero bits. -/
def lowBitAux : Nat → Nat → Nat
  | 0, _ => 0
  | fuel + 1, x => if x % 2 = 1 then 0 else lowBitAux fuel (x / 2) + 1

/-- Modelled from the spec: `bitscan_1bit`/`bitscan_forward` from the
missing `bitsets.rs` return the index of the least significant set bit
of a (nonzero) bitboard.  For `x < 2 ^ 64` this is the number of
trailing zeros of `x` (and `0` for `x = 0`). -/
def lowBit (x : Nat) : Nat := lowBitAux 64 x

/-- Modelled from the spec: `ls1b(x)` from the missing `bitsets.rs`
(Rust: `x & x.wrapping_neg()`) isolates the least significant set bit:
it returns `2 ^ lowBit x` for nonzero `x`, and `0` for `x = 0`. -/
def ls1b (x : Nat) : Nat := if x = 0 then 0 else 2 ^ lowBit x

/-- Modelled from the spec: `gen_shift(x, s)` from the missing
`bitsets.rs` is a generalized bit shift: left by `s` when `s ≥ 0`
(truncated to 64 bits), right by `-s` otherwise. -/
def genShift (x : Nat) (s : Int) : Nat :=
  if 0 ≤ s then (x <<< s.toNat) % 2 ^ 64 else x >>> (-s).toNat

/-- The list of indices of the set bits of a bitboard, in increasing
order, produced the way the source's `bitscan_forward_and_reset` loops
do (pop the least significant bit repeatedly). -/
def bitIndices : Nat → Nat → List Nat
  | 0, _ => []
  | fuel + 1, x => if x = 0 then [] else lowBit x :: bitIndices fuel (x ^^^ ls1b x)

/-- The number of set bits among the low 64 bits of a bitboard. -/
def bitCount (x : Nat) : Nat := ((List.range 64).filter x.testBit).length

/-- Builds a bitboard from a list of square indices. -/
def bbOf (l : List Nat) : Nat := l.foldl (fun a s => a ||| 1 <<< s) 0

def BB_RANK_1 : Nat := 0xFF

def BB_RANK_2 : Nat := 0xFF <<< 8

def BB_RANK_4 : Nat := 0xFF <<< 24

def BB_RANK_5 : Nat := 0xFF <<< 32

def BB_RANK_7 : Nat := 0xFF <<< 48

def BB_RANK_8 : Nat := 0xFF <<< 56

def BB_FILE_A : Nat := 0x0101010101010101

def BB_FILE_H : Nat := 0x0101010101010101 <<< 7

/-! ## Board geometry

The geometry module (`BoardGeometry`) is not under `src/`.  The tables
below are modelled from the specification, section 4.1: per-piece attack
sets on an empty board, blockers-and-beyond masks for sliders,
squares-behind-blocker masks and between-including masks. -/

/-- The file (0..7) of a square, as an integer. -/
def fileOf (s : Nat) : Int := (s % 8 : Nat)

/-- The rank (0..7) of a square, as an integer. -/
def rankOf (s : Nat) : Int := (s / 8 : Nat)

/-- The square at the given file and rank. -/
def sqAt (f r : Int) : Nat := (r * 8 + f).toNat

/-- The squares reached from `s` walking in direction `(df, dr)` until
the edge of the board, nearest first. -/
def raySquares (s : Nat) (df dr : Int) : List Nat :=
  (List.range 7).filterMap fun k =>
    let f := fileOf s + df * ((k : Int) + 1)
    let r := rankOf s + dr * ((k : Int) + 1)
    if 0 ≤ f ∧ f < 8 ∧ 0 ≤ r ∧ r < 8 then some (sqAt f r) else none

def rookDirections : List (Int × Int) := [(1, 0), (-1, 0), (0, 1), (0, -1)]

def bishopDirections : List (Int × Int) := [(1, 1), (1, -1), (-1, 1), (-1, -1)]

def knightOffsets : List (Int × Int) :=
  [(1, 2), (2, 1), (2, -1), (1, -2), (-1, -2), (-2, -1), (-2, 1), (-1, 2)]

def kingOffsets : List (Int × Int) :=
  [(1, 0), (1, 1), (0, 1), (-1, 1), (-1, 0), (-1, -1), (0, -1), (1, -1)]

/-- The squares reached from `s` by a single step from the given offset
list (knight and king moves). -/
def stepAttacks (offsets : List (Int × Int)) (s : Nat) : Nat :=
  bbOf (offsets.filterMap fun d =>
    let f := fileOf s + d.1
    let r := rankOf s + d.2
    if 0 ≤ f ∧ f < 8 ∧ 0 ≤ r ∧ r < 8 then some (sqAt f r) else none)

/-- The attack set of a sliding piece on an empty board. -/
def slideAttacks (dirs : List (Int × Int)) (s : Nat) : Nat :=
  bbOf ((dirs.map fun d => raySquares s d.1 d.2).flatten)

/-- `geometry.attacks[piece][square]`: the pseudo-attack set of `piece`
from `square` on an empty board. -/
def attacksOnEmpty (piece s : Nat) : Nat :=
  if piece = KING then stepAttacks kingOffsets s
  else if piece = QUEEN then
    slideAttacks rookDirections s ||| slideAttacks bishopDirections s
  else if piece = ROOK then slideAttacks rookDirections s
  else if piece = BISHOP then slideAttacks bishopDirections s
  else if piece = KNIGHT then stepAttacks knightOffsets s
  else 0

/-- `geometry.blockers_and_beyond[piece][square]`: nonempty only for
sliding pieces (spec 4.1); occupancy inside this mask shortens the
attack rays.  Taking the full empty-board attack set for sliders is
equivalent to any variant that drops the last square of each ray,
because the ray behind an edge square is empty. -/
def blockersAndBeyond (piece s : Nat) : Nat :=
  if piece = QUEEN ∨ piece = ROOK ∨ piece = BISHOP then attacksOnEmpty piece s else 0

/-- The direction of the straight line from `a` to `b`, when the two
squares share a rank, file or diagonal. -/
def dirTo (a b : Nat) : Option (Int × Int) :=
  if a = b then none
  else
    let df := fileOf b - fileOf a
    let dr := rankOf b - rankOf a
    let sf : Int := if 0 < df then 1 else if df < 0 then -1 else 0
    let sr : Int := if 0 < dr then 1 else if dr < 0 then -1 else 0
    if df = 0 ∨ dr = 0 ∨ df.natAbs = dr.natAbs then some (sf, sr) else none

/-- `geometry.squares_behind_blocker[a][b]`: the squares on the ray from
`a` through `b`, beyond `b`; empty when `a` and `b` do not share a
line. -/
def squaresBehindBlocker (a b : Nat) : Nat :=
  match dirTo a b with
  | some d => bbOf (raySquares b d.1 d.2)
  | none => 0

/-- `geometry.squares_between_including[a][b]`: the squares strictly
between `a` and `b` plus `b` itself, when the two squares share a line;
empty otherwise. -/
def squaresBetweenIncluding (a b : Nat) : Nat :=
  match dirTo a b with
  | some d =>
    let dist := max (fileOf b - fileOf a).natAbs (rankOf b - rankOf a).natAbs
    bbOf ((raySquares a d.1 d.2).take dist)
  | none => 0

/-- `piece_attacks_from` (src/position/board.rs, lines 391-413): the
attack set of `piece` standing on `s`, on a board occupied according to
`occupied`: each blocker inside the blockers-and-beyond mask removes the
ray behind itself. -/
def pieceAttacksFrom (occupied piece s : Nat) : Nat :=
  (bitIndices 64 (occupied &&& blockersAndBeyond piece s)).foldl
    (fun attacks blocker => attacks &&& compl64 (squaresBehindBlocker s blocker))
    (attacksOnEmpty piece s)

/-! ## Board state and `attacks_to` -/

/-- `Board` (src/position/board.rs): per-piece-type and per-color
bitboards plus the occupancy bitboard.  `pieceType` is indexed by the
piece constants `KING..PAWN`, `color` by `WHITE`/`BLACK`. -/
structure Board where
  pieceType : List Nat
  color : List Nat
  occupied : Nat

/-- `piece_type_array[p]`. -/
def Board.pt (b : Board) (p : Nat) : Nat := b.pieceType.getD p 0

/-- `color_array[c]`. -/
def Board.col (b : Board) (c : Nat) : Nat := b.color.getD c 0

/-- `PAWN_MOVE_SHIFTS` (src/position/board.rs, line 14): push, double
push, queenside capture, kingside capture. -/
def pawnMoveShifts (us : Nat) : List Int :=
  if us = WHITE then [8, 16, 7, 9] else [-8, -16, -9, -7]

/-- `attacks_to` (src/position/board.rs, lines 352-382): the squares
holding pieces of color `us` that attack `square` directly. -/
def attacksTo (b : Board) (us square : Nat) : Nat :=
  let occupiedByUs := b.col us
  let shifts := pawnMoveShifts us
  let squareBB := 1 <<< square
  (pieceAttacksFrom b.occupied ROOK square &&& occupiedByUs &&&
      (b.pt ROOK ||| b.pt QUEEN)) |||
  (pieceAttacksFrom b.occupied BISHOP square &&& occupiedByUs &&&
      (b.pt BISHOP ||| b.pt QUEEN)) |||
  (pieceAttacksFrom b.occupied KNIGHT square &&& occupiedByUs &&& b.pt KNIGHT) |||
  (pieceAttacksFrom b.occupied KING square &&& occupiedByUs &&& b.pt KING) |||
  (genShift squareBB (-(shifts.getD 3 0)) &&& occupiedByUs &&& b.pt PAWN &&&
      compl64 (BB_FILE_H ||| BB_RANK_1 ||| BB_RANK_8)) |||
  (genShift squareBB (-(shifts.getD 2 0)) &&& occupiedByUs &&& b.pt PAWN &&&
      compl64 (BB_FILE_A ||| BB_RANK_1 ||| BB_RANK_8))

/-! ## The destination mask of the move generator -/

/-- The `legal_dests` computation of `generate_pseudolegal_moves`
(src/position/board.rs, lines 108-132): the destination mask applied to
all non-king moves, determined by the checkers bitboard. -/
def legalDests (occupiedByUs checkers kingSquare : Nat) : Nat :=
  compl64 occupiedByUs &&&
    (if ls1b checkers = 0 then UNIVERSAL_SET
     else if ls1b checkers = checkers then
       ls1b checkers ||| squaresBetweenIncluding kingSquare (lowBit (ls1b checkers))
     else EMPTY_SET)

/-! ## Static exchange evaluation -/

/-- The move-type constants (src/chess_move.rs, lines 496-505). -/
def MOVE_ENPASSANT : Nat := 0

def MOVE_PROMOTION : Nat := 1

def MOVE_CASTLING : Nat := 2

def MOVE_NORMAL : Nat := 3

/-- `PIECE_VALUES` (src/board/mod.rs, line 306): king, queen, rook,
bishop, knight, pawn, no-piece. -/
def PIECE_VALUES : List Int := [10000, 975, 500, 325, 325, 100, 0]

/-- The x-ray update of `calc_see` (src/board/mod.rs, lines 360-374):
the new attacker/defender revealed behind the vacated square
`origSq`, looking from `destSquare`. -/
def seeXray (b : Board) (destSquare origSq : Nat) : Nat :=
  let candidates := b.occupied &&& squaresBehindBlocker destSquare origSq
  let straight := pieceAttacksFrom candidates ROOK destSquare &&& candidates &&&
    (b.pt QUEEN ||| b.pt ROOK)
  if straight ≠ 0 then straight
  else
    pieceAttacksFrom candidates BISHOP destSquare &&& candidates &&&
      (b.pt QUEEN ||| b.pt BISHOP)

/-- The least valuable piece of the side to move among `candidates`
(src/board/mod.rs, lines 381-390): scan piece types from pawn down to
king, return the piece type and the first set bit of its subset. -/
def leastValuable (b : Board) (candidates : Nat) : Option (Nat × Nat) :=
  [PAWN, KNIGHT, BISHOP, ROOK, QUEEN, KING].findSome? fun p =>
    let bb := candidates &&& b.pt p
    if bb ≠ 0 then some (p, ls1b bb) else none

/-- The `exchange` loop of `calc_see` (src/board/mod.rs, lines
343-392), filling the `gain` array: the returned list is
`[gain depth, ..., gain 0]`.  The speculative `gain[depth + 1]` of the
source becomes real only when the next attacker is found, which the
list encoding mirrors by consing at that moment.  The fuel bounds the
number of exchanges; 34 exceeds the source's `gain` array size, and the
loop can never run longer because each iteration removes an attacker. -/
def seeLoop (b : Board) (destSquare mayXray : Nat) :
    Nat → List Int → Nat → Nat → Nat → Nat → List Int
  | 0, gains, _, _, _, _ => gains
  | fuel + 1, gains, attackers, us, piece, origSquareBB =>
    if origSquareBB = 0 then gains
    else
      let g := gains.headD 0
      let speculative := PIECE_VALUES.getD piece 0 - g
      if max (-g) speculative < 0 then gains
      else
        let attackers := attackers &&& compl64 origSquareBB
        let attackers :=
          if origSquareBB &&& mayXray ≠ 0 then
            attackers ||| seeXray b destSquare (lowBit origSquareBB)
          else attackers
        let us := us ^^^ 1
        match leastValuable b (attackers &&& b.col us) with
        | some pb =>
          seeLoop b destSquare mayXray fuel (speculative :: gains) attackers us pb.1 pb.2
        | none => gains

/-- `calc_see` (src/board/mod.rs, lines 303-406): the static exchange
evaluation of the move that plays `playedPiece` from `origSquare` to
`destSquare`, capturing `capturedPiece`.  `toMove` is the side to move
of the board.  The final negamax of the `gain` array is the fold at the
end. -/
def calcSee (b : Board) (toMove playedPiece origSquare destSquare capturedPiece
    moveType : Nat) : Int :=
  let mayXray := b.pt PAWN ||| b.pt BISHOP ||| b.pt ROOK ||| b.pt QUEEN
  let attackersAndDefenders := attacksTo b WHITE destSquare ||| attacksTo b BLACK destSquare
  let capturedPieceValue := PIECE_VALUES.getD capturedPiece 0
  let gain0 : Int :=
    if moveType = MOVE_PROMOTION then capturedPieceValue + 1 else capturedPieceValue
  let gains :=
    seeLoop b destSquare mayXray 34 [gain0] attackersAndDefenders toMove playedPiece
      (1 <<< origSquare)
  match gains with
  | [] => 0
  | g :: rest => rest.foldl (fun acc gi => -(max (-gi) acc)) g

/-- The board denoted by the FEN string
`1k1r4/1pp4p/p7/4p3/8/P5P1/1PP4P/2K1R3 w - -`
(white: Kc1, Re1, Pa3, Pg3, Pb2, Pc2, Ph2;
black: Kb8, Rd8, Pb7, Pc7, Ph7, Pa6, Pe5). -/
def seeTestBoard1 : Board :=
  { pieceType := [bbOf [2, 57], 0, bbOf [4, 59], 0, 0,
                  bbOf [16, 22, 9, 10, 15, 49, 50, 55, 40, 36]]
    color := [bbOf [2, 4, 16, 22, 9, 10, 15], bbOf [57, 59, 49, 50, 55, 40, 36]]
    occupied := bbOf [2, 4, 16, 22, 9, 10, 15] ||| bbOf [57, 59, 49, 50, 55, 40, 36] }

/-- The board denoted by the FEN string
`1k1r3q/1ppn3p/p4b2/4p3/8/P2N2P1/1PP1R1BP/2K1Q3 w - -`
(white: Kc1, Qe1, Re2, Bg2, Nd3, Pa3, Pg3, Pb2, Pc2, Ph2;
black: Kb8, Qh8, Rd8, Bf6, Nd7, Pb7, Pc7, Ph7, Pa6, Pe5). -/
def seeTestBoard2 : Board :=
  { pieceType := [bbOf [2, 57], bbOf [4, 63], bbOf [12, 59], bbOf [14, 45], bbOf [19, 51],
                  bbOf [16, 22, 9, 10, 15, 49, 50, 55, 40, 36]]
    color := [bbOf [2, 4, 12, 14, 19, 16, 22, 9, 10, 15],
              bbOf [57, 63, 59, 45, 51, 49, 50, 55, 40, 36]]
    occupied := bbOf [2, 4, 12, 14, 19, 16, 22, 9, 10, 15] |||
      bbOf [57, 63, 59, 45, 51, 49, 50, 55, 40, 36] }

/-! ## The packed 64-bit move representation (src/chess_move.rs) -/

/-- `MOVE_SCORE_MAX` (src/chess_move.rs, line 488): `u32::MAX`. -/
def MOVE_SCORE_MAX : Nat := 2 ^ 32 - 1

set_option linter.unusedVariables false in
/-- `Move::new` (src/chess_move.rs, lines 125-173).  A move is a packed
64-bit value; the `us` argument is only sanity-checked by the source
and does not influence the result.  The pair mirrors the source's
simultaneous computation of `score_shifted` and `aux_data`. -/
def moveNew (us moveType piece origSquare destSquare capturedPiece enPassantFile
    castling promotedPieceCode : Nat) : Nat :=
  let scoreShifted : Nat :=
    if capturedPiece = NO_PIECE then 0 <<< 32 else MOVE_SCORE_MAX <<< 32
  let pair : Nat × Nat :=
    if moveType = MOVE_PROMOTION then
      (if promotedPieceCode = 0 then MOVE_SCORE_MAX <<< 32 else (MOVE_SCORE_MAX - 1) <<< 32,
       promotedPieceCode)
    else (scoreShifted, 0)
  pair.1 |||
    ((compl64 capturedPiece &&& 0b111) <<< 27 ||| piece <<< 24 |||
     castling <<< 20 ||| enPassantFile <<< 16 |||
     moveType <<< 14 ||| origSquare <<< 8 ||| destSquare <<< 2 ||| pair.2 <<< 0)

/-- `Move::invalid` (src/chess_move.rs, lines 178-180): all 64 bits
zero. -/
def moveInvalid : Nat := 0

/-- `Move::score` (src/chess_move.rs, lines 191-193): bits 32-63. -/
def moveScore (m : Nat) : Nat := (m >>> 32) % 2 ^ 32

/-- `Move::digest` (src/chess_move.rs, lines 266-268): the least
significant 16 bits. -/
def moveDigest (m : Nat) : Nat := m % 2 ^ 16

/-! ## `MoveStack` and `remove_best_move` (src/chess_move.rs)

Moves are compared as raw 64-bit values (`Move` derives `Ord` on the
`u64`), so a move is modelled by the `Nat` holding its bits; the
32-bit score occupies the top bits, so higher scores compare first. -/

/-- `MoveStack` (src/chess_move.rs, lines 331-335). -/
structure MoveStack where
  moves : List Nat
  savepoints : List Nat
  firstMoveIndex : Nat
deriving DecidableEq

/-- The current move list of the stack: the moves from
`first_move_index` on. -/
def MoveStack.current (s : MoveStack) : List Nat := s.moves.drop s.firstMoveIndex

/-- The selection loop of `remove_best_move` (src/chess_move.rs, lines
450-464): `j` walks from `i` down to `first_move_index`; whenever
`moves[j]` beats the current candidate `m`, the two are swapped so the
candidate lives at index `i`.  The loop index is encoded as
`j = fmi + n`, recursing on `n`. -/
def rbStep (i fmi n : Nat) (moves : List Nat) (m : Nat) : List Nat × Nat :=
  let j := fmi + n
  let mj := moves.getD j 0
  if m < mj then
    let moves2 := (moves.set i mj).set j m
    (moves2, moves2.getD i 0)
  else (moves, m)

def rbLoop (i fmi : Nat) : Nat → List Nat → Nat → List Nat × Nat
  | 0, moves, m => rbStep i fmi 0 moves m
  | k + 1, moves, m =>
    let p := rbStep i fmi (k + 1) moves m
    rbLoop i fmi k p.1 p.2

/-- `MoveStack::remove_best_move` (src/chess_move.rs, lines 443-470):
if the current move list is non-empty, move its maximum to the last
position, pop and return it. -/
def removeBestMove (s : MoveStack) : Option Nat × MoveStack :=
  if s.firstMoveIndex < s.moves.length then
    let i := s.moves.length - 1
    let r := rbLoop i s.firstMoveIndex (i - s.firstMoveIndex) s.moves (s.moves.getD i 0)
    (some r.2, { s with moves := r.1.dropLast })
  else (none, s)

/-! ## The PVS move loop of `Search::run` (src/engine/search.rs)

The bound-type constants live in the `tt` module, which is not under
`src/`; their values are modelled from the spec glossary ("Bound kind:
exact, lower-bound (beta cutoff), upper-bound (failed-low), or none")
and the source's bit tests `bound & BOUND_LOWER != 0`,
`bound & BOUND_UPPER != 0`, `bound == BOUND_EXACT`. -/

def BOUND_NONE : Nat := 0

def BOUND_LOWER : Nat := 0b01

def BOUND_UPPER : Nat := 0b10

def BOUND_EXACT : Nat := 0b11

/-- The move loop of `Search::run` (src/engine/search.rs, lines
91-157), with the recursive search abstracted: `child mv a b` stands
for `self.run(a, b, depth - 1, true)` after `mv` was played.  The
accumulators are the loop state: current `alpha`, current `bound`
(initially `BOUND_UPPER`) and the `no_moves_yet` flag. -/
def pvsMoveLoop (child : Nat → Int → Int → Int) (beta : Int) :
    List Nat → Int → Nat → Bool → Int × Nat
  | [], alpha, bound, _ => (alpha, bound)
  | mv :: rest, alpha, bound, noMovesYet =>
    let value :=
      if noMovesYet then -(child mv (-beta) (-alpha))
      else
        let x := -(child mv (-alpha - 1) (-alpha))
        if x ≤ alpha then x else -(child mv (-beta) (-alpha))
    if beta ≤ value then (beta, BOUND_LOWER)
    else if alpha < value then pvsMoveLoop child beta rest value BOUND_EXACT false
    else pvsMoveLoop child beta rest alpha bound false

/-- `Search::run`'s move loop as entered from the top: `bound`
starts as `BOUND_UPPER`, and the first move sees `no_moves_yet`. -/
def pvsMoveLoopRun (child : Nat → Int → Int → Int) (moves : List Nat)
    (alpha beta : Int) : Int × Nat :=
  pvsMoveLoop child beta moves alpha BOUND_UPPER true

/-- The move loop exactly as the specification sentence describes it
(spec 4.6): the first child move is searched with the full window
`(-beta, -alpha)`; every subsequent move is first searched with the
null window `(-alpha-1, -alpha)` and re-searched with the full window
exactly when its null-window result exceeds alpha; alpha is raised to
the returned value when it improves on alpha; the node cuts off,
returning beta, when a value `>= beta` is found (the boolean marks the
cutoff). -/
def pvsMoveLoopFromSpec (child : Nat → Int → Int → Int) (beta : Int) :
    List Nat → Int → Bool → Int × Bool
  | [], alpha, _ => (alpha, false)
  | mv :: rest, alpha, isFirstMove =>
    let value :=
      if isFirstMove then -(child mv (-beta) (-alpha))
      else
        let x := -(child mv (-alpha - 1) (-alpha))
        if alpha < x then -(child mv (-beta) (-alpha)) else x
    if beta ≤ value then (beta, true)
    else pvsMoveLoopFromSpec child beta rest (if alpha < value then value else alpha) false

/-! ## Aspiration windows (src/search/deepening.rs and src/search/mod.rs)

The `Value` constants live in modules missing from `src/`; they are
modelled from the spec (section 3: values are 16-bit).  The claim
theorems constrain them only through hypotheses, so their exact
numeric values are immaterial to the results. -/

def VALUE_MIN : Int := -32767

def VALUE_MAX : Int := 32767

def VALUE_UNKNOWN : Int := -32768

/-- The state the aspiration searcher keeps for its window. -/
structure AspWindow where
  alpha : Int
  beta : Int
  delta : Int
  expectedToFailHigh : Bool
deriving DecidableEq

/-- `AspirationSearcher::calc_initial_aspiration_window`
(src/search/deepening.rs, lines 310-339).  `ttProbe` is the result of
probing the transposition table at the root hash: value, depth and
bound of the entry, when one was found. -/
def calcInitialAspirationWindow (lowerBound upperBound : Int) (paramsDepth : Nat)
    (ttProbe : Option (Int × Nat × Nat)) : AspWindow :=
  let s : Int × Int × Int × Bool :=
    match ttProbe with
    | some evb =>
      let v := evb.1
      let edepth := evb.2.1
      let ebound := evb.2.2
      if 4 ≤ edepth ∧ paramsDepth ≤ edepth + 2 then
        let a := if ebound &&& BOUND_LOWER ≠ 0 then max (v - 16) VALUE_MIN else VALUE_MIN
        let b := if ebound &&& BOUND_UPPER ≠ 0 then min (v + 16) VALUE_MAX else VALUE_MAX
        let t : Int × Int × Bool :=
          if upperBound ≤ a then (upperBound - 1, v - (upperBound - 1), true)
          else (a, 16, false)
        if b ≤ lowerBound then (t.1, lowerBound + 1, lowerBound + 1 - v, t.2.2)
        else (t.1, b, t.2.1, t.2.2)
      else (VALUE_MIN, VALUE_MAX, 16, false)
    | none => (VALUE_MIN, VALUE_MAX, 16, false)
  { alpha := max s.1 lowerBound
    beta := min s.2.1 upperBound
    delta := s.2.2.1
    expectedToFailHigh := s.2.2.2 }

/-- `AspirationSearcher::increase_delta` (src/search/deepening.rs,
lines 359-364, identical in src/search/mod.rs, lines 318-323).  The
Rust `isize` division truncates; `delta` is always positive here, so
any integer division convention agrees. -/
def increaseDelta (delta : Int) : Int :=
  let d := delta + 3 * delta / 8
  if 1500 < d then 1000000 else d

/-- `AspirationSearcher::widen_aspiration_window`
(src/search/deepening.rs, lines 341-357).  Returns whether a re-search
is needed together with the updated window. -/
def widenAspirationWindow (lowerBound upperBound : Int) (lmrMode : Bool)
    (w : AspWindow) (v : Int) : Bool × AspWindow :=
  if (lowerBound < w.alpha ∧ lowerBound < v ∧ v ≤ w.alpha) ∨
      (lmrMode ∧ w.expectedToFailHigh ∧ v < upperBound) then
    (true, { w with
      alpha := max (v - w.delta) lowerBound
      expectedToFailHigh := false
      delta := increaseDelta w.delta })
  else if w.beta < upperBound ∧ w.beta ≤ v ∧ v < upperBound then
    (true, { w with
      beta := min (v + w.delta) upperBound
      expectedToFailHigh := false
      delta := increaseDelta w.delta })
  else (false, w)

/-- The initial-window computation of `AspirationSearcher::start_search`
in src/search/mod.rs (lines 344-371): this older aspiration searcher
takes the predicted value from the search parameters and uses the
half-width 17 (line 356, `self.delta = 17; // TODO: make this 16?`).
Returns (alpha, beta, delta). -/
def startSearchWindowModRs (value lowerBound upperBound : Int) : Int × Int × Int :=
  let delta : Int := 17
  if value = VALUE_UNKNOWN ∨ value < lowerBound ∨ upperBound < value then
    (lowerBound, upperBound, delta)
  else
    (max (value - delta) lowerBound, min (value + delta) upperBound, delta)

/-! ## The transposition table (src/stock/std_hash_table.rs)

`Value` fields (`i16`) are modelled as `Int`; `transmute` to `u64`
becomes an explicit 16/8/8/16/16-bit packing (the concrete layout is
compiler-chosen in Rust; the theorems only use that packing XOR-cancels).
`DEPTH_MAX` lives in the missing `depth` module; it is modelled from
the spec (depth is 8 bits) as 127, and no theorem depends on its
value. -/

def DEPTH_MAX : Int := 127

/-- The two's-complement low 16 bits of an `i16` value. -/
def bits16 (x : Int) : Nat := (x % 65536).toNat

/-- `StdHashTableEntry` (src/stock/std_hash_table.rs, lines 14-27):
`gen_bound` stores the generation in the high 6 bits and the bound
type in the low 2 bits. -/
structure TtEntry where
  value : Int
  genBound : Nat
  depth : Nat
  moveDigest : Nat
  staticEval : Int
deriving DecidableEq

/-- `StdHashTableEntry::as_u64` (line 88): the packed representation
used by the XOR trick. -/
def TtEntry.asU64 (e : TtEntry) : Nat :=
  bits16 e.value ||| (e.genBound % 256) <<< 16 ||| (e.depth % 256) <<< 24 |||
    (e.moveDigest % 65536) <<< 32 ||| bits16 e.staticEval <<< 48

/-- `StdHashTableEntry::bound` (line 64): the low two bits. -/
def TtEntry.bound (e : TtEntry) : Nat := e.genBound &&& 0b11

/-- `Record` (src/stock/std_hash_table.rs, lines 292-296). -/
structure Record where
  key : Nat
  data : TtEntry
deriving DecidableEq

/-- `Record::generation` (line 309): the high six bits of
`gen_bound`. -/
def Record.generation (r : Record) : Nat := r.data.genBound &&& 0b11111100

/-- `Record::set_generation` (lines 314-323): refresh the generation
and fix up the XOR-ed key. -/
def Record.setGeneration (r : Record) (generation : Nat) : Record :=
  let oldData := r.data.asU64
  let newData : TtEntry := { r.data with genBound := generation ||| (r.data.genBound &&& 0b11) }
  { key := r.key ^^^ (oldData ^^^ newData.asU64), data := newData }

/-- `Record::default` (lines 298-305): all-zero. -/
def emptyRecord : Record :=
  { key := 0, data := { value := 0, genBound := 0, depth := 0, moveDigest := 0, staticEval := 0 } }

/-- `StdHashTable` (lines 95-106): generation, cluster count, and the
vector of 4-record clusters (cluster arity is kept as a well-formedness
hypothesis of the theorems rather than in the type). -/
structure TtState where
  generation : Nat
  clusterCount : Nat
  table : List (List Record)
deriving DecidableEq

/-- `StdHashTable::cluster_mut`'s index computation (line 273). -/
def clusterIndex (s : TtState) (key : Nat) : Nat := key &&& (s.clusterCount - 1)

/-- `StdHashTable::calc_score` (lines 246-267): the replacement score
of a record; records of the current generation get a large bonus. -/
def calcScore (gen : Nat) (r : Record) : Int :=
  (if r.generation = gen then DEPTH_MAX + 2 else 0) + (r.data.depth : Int) +
    (if r.data.genBound &&& 0b11 = BOUND_EXACT then 1 else 0)

/-- The slot-choice loop of `StdHashTable::store` (lines 177-200):
walk the cluster; break at the first empty slot or slot holding this
key (second component `true`); otherwise remember the slot with the
lowest replacement score (strict improvement, so the earliest minimum
wins; `bestScore` starts at `isize::MAX`). -/
def friGo (gen key : Nat) : List Record → Nat → Nat → Int → Nat × Bool
  | [], _, bestIdx, _ => (bestIdx, false)
  | r :: rest, i, bestIdx, bestScore =>
    if r.key = 0 ∨ r.key ^^^ r.data.asU64 = key then (i, true)
    else if calcScore gen r < bestScore then friGo gen key rest (i + 1) i (calcScore gen r)
    else friGo gen key rest (i + 1) bestIdx bestScore

def findReplaceIndex (gen key : Nat) (l : List Record) : Nat × Bool :=
  friGo gen key l 0 0 9223372036854775807

/-- `StdHashTable::store` (lines 166-207): set the entry's generation,
choose a slot (preserving the stored move digest when the incoming one
is invalid and the chosen slot was an empty-or-matching one), and write
the record with the key XOR-ed with the payload. -/
def store (s : TtState) (key : Nat) (data : TtEntry) : TtState :=
  let data1 : TtEntry := { data with genBound := s.generation ||| (data.genBound &&& 0b11) }
  let ci := clusterIndex s key
  let cluster := s.table.getD ci []
  let fr := findReplaceIndex s.generation key cluster
  let data2 : TtEntry :=
    if data1.moveDigest = 0 ∧ fr.2 then
      { data1 with moveDigest := (cluster.getD fr.1 emptyRecord).data.moveDigest }
    else data1
  let newRec : Record := { key := key ^^^ data2.asU64, data := data2 }
  { s with table := s.table.set ci (cluster.set fr.1 newRec) }

/-- The record scan of `StdHashTable::probe` (lines 216-228): return
the payload of the first record whose stored key XOR payload equals
the probed key, refreshing that record's generation. -/
def probeList (gen key : Nat) : List Record → Option TtEntry × List Record
  | [] => (none, [])
  | r :: rest =>
    if r.key ^^^ r.data.asU64 = key then
      let r2 := r.setGeneration gen
      (some r2.data, r2 :: rest)
    else
      let p := probeList gen key rest
      (p.1, r :: p.2)

/-- `StdHashTable::probe` (lines 209-229). -/
def probe (s : TtState) (key : Nat) : Option TtEntry × TtState :=
  let ci := clusterIndex s key
  let p := probeList s.generation key (s.table.getD ci [])
  (p.1, { s with table := s.table.set ci p.2 })

/-- The records of the first `min 128 clusterCount` clusters, which
`new_search` samples (lines 146-154). -/
def sampledRecords (s : TtState) : List Record :=
  (s.table.take (min 128 s.clusterCount)).flatten

/-- How many sampled records are real (non-zero key) and carry
generation `gen` (the `staled` counter of `new_search`). -/
def staledCount (s : TtState) (gen : Nat) : Nat :=
  (sampledRecords s).countP fun r => decide (r.key ≠ 0 ∧ r.generation = gen)

/-- The loop of `StdHashTable::new_search` (lines 136-164): advance
the generation by `0b100` (wrapping on the `u8`), and repeat while at
least `N = 128` sampled records already carry the new generation.  The
fuel (64 in `newSearch`) is immaterial: the loop provably exits within
five iterations. -/
def newSearchAux : Nat → TtState → TtState
  | fuel, s =>
    let s2 : TtState := { s with generation := (s.generation + 0b100) % 256 }
    if staledCount s2 s2.generation < 128 then s2
    else
      match fuel with
      | 0 => s2
      | f + 1 => newSearchAux f s2

/-- `StdHashTable::new_search` (lines 136-164). -/
def newSearch (s : TtState) : TtState := newSearchAux 64 s

/-- The entry that `store` actually writes (its `data2`): the incoming
entry with the table's generation installed, and — when the incoming
move digest is invalid and the chosen slot was empty or key-matching —
the slot's previous move digest preserved. -/
def storeData2 (s : TtState) (key : Nat) (e : TtEntry) : TtEntry :=
  let data1 : TtEntry := { e with genBound := s.generation ||| (e.genBound &&& 0b11) }
  if data1.moveDigest = 0 ∧
      (findReplaceIndex s.generation key (s.table.getD (clusterIndex s key) [])).2 then
    { data1 with moveDigest := ((s.table.getD (clusterIndex s key) []).getD
        (findReplaceIndex s.generation key (s.table.getD (clusterIndex s key) [])).1
        emptyRecord).data.moveDigest }
  else data1

/-! ## Theorems -/

/-! ## Supporting lemmas about the bit primitives -/

theorem lowBitAux_two_pow : ∀ fuel i, i < fuel → lowBitAux fuel (2 ^ i) = i := by
  intro fuel
  induction fuel with
  | zero => intro i h; omega
  | succ f ih =>
    intro i h
    cases i with
    | zero => simp [lowBitAux]
    | succ j =>
      have h2 : 2 ^ (j + 1) = 2 ^ j * 2 := by rw [Nat.pow_succ]
      have hmod : 2 ^ (j + 1) % 2 = 0 := by rw [h2]; exact Nat.mul_mod_left _ _
      have hdiv : 2 ^ (j + 1) / 2 = 2 ^ j := by rw [h2]; exact Nat.mul_div_cancel _ (by omega)
      simp only [lowBitAux, hmod, hdiv]
      rw [if_neg (by omega), ih j (by omega)]

theorem ls1b_two_pow (i : Nat) (h : i < 64) : ls1b (2 ^ i) = 2 ^ i := by
  unfold ls1b lowBit
  rw [if_neg (Nat.two_pow_pos i).ne', lowBitAux_two_pow 64 i h]

theorem ls1b_zero : ls1b 0 = 0 := rfl

theorem ls1b_ne_zero (x : Nat) (h : x ≠ 0) : ls1b x ≠ 0 := by
  unfold ls1b
  rw [if_neg h]
  exact (Nat.two_pow_pos (lowBit x)).ne'

theorem bitCount_zero : bitCount 0 = 0 := by
  unfold bitCount
  rw [List.filter_eq_nil_iff.mpr (by intro k _; simp [Nat.zero_testBit])]
  rfl

theorem bitCount_two_pow (j : Nat) (h : j < 64) : bitCount (2 ^ j) = 1 := by
  unfold bitCount
  have hpred : (Nat.testBit (2 ^ j)) = (fun k => k == j) := by
    funext k
    by_cases hk : j = k
    · subst hk; simp [Nat.testBit_two_pow_self]
    · simp [Nat.testBit_two_pow_of_ne hk, Ne.symm hk]
  rw [hpred, ← List.countP_eq_length_filter]
  have : List.countP (fun k => k == j) (List.range 64) = List.count j (List.range 64) := rfl
  rw [this, List.count_eq_one_of_mem (List.nodup_range 64) (List.mem_range.mpr h)]

theorem compl64_lt (x : Nat) (h : x < 2 ^ 64) : compl64 x < 2 ^ 64 := by
  unfold compl64 UNIVERSAL_SET
  exact Nat.xor_lt_two_pow (by omega) h

theorem land_univ (x : Nat) (h : x < 2 ^ 64) : x &&& UNIVERSAL_SET = x := by
  unfold UNIVERSAL_SET
  exact Nat.and_pow_two_sub_one_of_lt_two_pow h

theorem lowBit_two_pow (i : Nat) (h : i < 64) : lowBit (2 ^ i) = i :=
  lowBitAux_two_pow 64 i h

/-! ## Claim theorems: C3 and C6 -/

/-- **C3.** On the board given by FEN
`1k1r4/1pp4p/p7/4p3/8/P5P1/1PP4P/2K1R3 w - -` the static exchange
evaluation of the rook capture Re1xe5 returns 100, and on the board
given by FEN `1k1r3q/1ppn3p/p4b2/4p3/8/P2N2P1/1PP1R1BP/2K1Q3 w - -` the
static exchange evaluation of the knight capture Nd3xe5 returns
-225. -/
theorem calcSee_test_positions :
    calcSee seeTestBoard1 WHITE ROOK 4 36 PAWN MOVE_NORMAL = 100 ∧
    calcSee seeTestBoard2 WHITE KNIGHT 19 36 PAWN MOVE_NORMAL = -225 := by
  constructor <;> decide

/-- **C6.** In move generation, the destination mask applied to all
non-king moves is determined by the number of checking pieces: with
zero checkers it is every square not occupied by an own piece; with
exactly one checker (a single-bit checkers bitboard `2 ^ i`) it is the
squares between the king and the checker plus the checker's own square,
intersected with the non-own squares; with two (or more) checkers it is
the empty set, so only king moves are generated. -/
theorem legalDests_cases (own checkers kingSquare : Nat)
    (hown : own < 2 ^ 64) (hch : checkers < 2 ^ 64) :
    (checkers = 0 → legalDests own checkers kingSquare = compl64 own) ∧
    (∀ i, checkers = 2 ^ i →
      legalDests own checkers kingSquare =
        (checkers ||| squaresBetweenIncluding kingSquare i) &&& compl64 own) ∧
    (2 ≤ bitCount checkers → legalDests own checkers kingSquare = EMPTY_SET) := by
  refine ⟨?_, ?_, ?_⟩
  · intro h0
    subst h0
    unfold legalDests
    rw [if_pos ls1b_zero]
    exact land_univ _ (compl64_lt own hown)
  · intro i hi
    subst hi
    have hilt : i < 64 := by
      by_contra hge
      push_neg at hge
      have : 2 ^ 64 ≤ 2 ^ i := Nat.pow_le_pow_right (by omega) hge
      omega
    unfold legalDests
    rw [ls1b_two_pow i hilt]
    rw [if_neg (Nat.two_pow_pos i).ne', if_pos rfl, lowBit_two_pow i hilt, Nat.land_comm]
  · intro h2
    have hc0 : checkers ≠ 0 := by
      intro h
      subst h
      rw [bitCount_zero] at h2
      omega
    have hne : ls1b checkers ≠ checkers := by
      intro heq
      unfold ls1b at heq
      rw [if_neg hc0] at heq
      have hlt : lowBit checkers < 64 := by
        by_contra hge
        push_neg at hge
        have : 2 ^ 64 ≤ 2 ^ lowBit checkers := Nat.pow_le_pow_right (by omega) hge
        omega
      rw [← heq, bitCount_two_pow _ hlt] at h2
      omega
    unfold legalDests
    rw [if_neg (ls1b_ne_zero checkers hc0), if_neg hne]
    simp [EMPTY_SET]

/-- Witness for `legalDests_cases` at a concrete input: white king on
e1, own pieces on e2 and d1, a single checking piece on e8. -/
theorem legalDests_cases_witness :
    bbOf [12, 3] < 2 ^ 64 ∧ bbOf [60] < 2 ^ 64 ∧
    legalDests (bbOf [12, 3]) (bbOf [60]) 4 =
      (bbOf [60] ||| squaresBetweenIncluding 4 60) &&& compl64 (bbOf [12, 3]) := by
  refine ⟨by decide, by decide, ?_⟩
  exact (legalDests_cases (bbOf [12, 3]) (bbOf [60]) 4 (by decide) (by decide)).2.1 60
    (by decide)

/-! ### Bit-extraction lemmas -/

theorem shiftRight32_of_or (hi low : Nat) (hlow : low < 2 ^ 32) :
    (hi <<< 32 ||| low) >>> 32 = hi := by
  apply Nat.eq_of_testBit_eq
  intro k
  have hb : Nat.testBit low (32 + k) = false :=
    Nat.testBit_lt_two_pow (lt_of_lt_of_le hlow (Nat.pow_le_pow_right (by omega) (by omega)))
  have hidx : 32 + k - 32 = k := by omega
  simp [Nat.testBit_shiftRight, Nat.testBit_or, Nat.testBit_shiftLeft, hb, hidx]

theorem moveScore_of_or (hi low : Nat) (hhi : hi < 2 ^ 32) (hlow : low < 2 ^ 32) :
    moveScore (hi <<< 32 ||| low) = hi := by
  unfold moveScore
  rw [shiftRight32_of_or _ _ hlow, Nat.mod_eq_of_lt hhi]

theorem mod_two_pow_or_distrib (a b k : Nat) :
    (a ||| b) % 2 ^ k = a % 2 ^ k ||| b % 2 ^ k := by
  apply Nat.eq_of_testBit_eq
  intro j
  simp only [Nat.testBit_mod_two_pow, Nat.testBit_or]
  by_cases hj : j < k <;> simp [hj]

theorem shiftLeft_mod_two_pow_eq_zero (x s k : Nat) (h : k ≤ s) :
    (x <<< s) % 2 ^ k = 0 := by
  rw [Nat.shiftLeft_eq]
  have hsplit : 2 ^ s = 2 ^ (s - k) * 2 ^ k := by
    rw [← Nat.pow_add]
    congr 1
    omega
  rw [hsplit, ← Nat.mul_assoc]
  exact Nat.mul_mod_left _ _

theorem or_eq_zero_iff (a b : Nat) : a ||| b = 0 ↔ a = 0 ∧ b = 0 := by
  constructor
  · intro h
    have hbit : ∀ i, (Nat.testBit a i || Nat.testBit b i) = false := by
      intro i
      have := congrArg (fun x => Nat.testBit x i) h
      simpa using this
    constructor <;>
      · apply Nat.eq_of_testBit_eq
        intro i
        have := Bool.or_eq_false_iff.mp (hbit i)
        simp [this.1, this.2]
  · rintro ⟨rfl, rfl⟩
    rfl

theorem moveNew_low_lt (capturedPiece piece castling enPassantFile moveType origSquare
    destSquare aux : Nat) (hpiece : piece < 8) (hcr : castling ≤ 15)
    (hep : enPassantFile ≤ 15) (hmt : moveType ≤ 3) (horig : origSquare ≤ 63)
    (hdest : destSquare ≤ 63) (haux : aux ≤ 3) :
    (compl64 capturedPiece &&& 0b111) <<< 27 ||| piece <<< 24 |||
      castling <<< 20 ||| enPassantFile <<< 16 |||
      moveType <<< 14 ||| origSquare <<< 8 ||| destSquare <<< 2 ||| aux <<< 0 < 2 ^ 32 := by
  have hinv : compl64 capturedPiece &&& 0b111 < 2 ^ 3 :=
    Nat.and_lt_two_pow _ (by omega)
  simp only [Nat.shiftLeft_eq]
  refine Nat.or_lt_two_pow (Nat.or_lt_two_pow (Nat.or_lt_two_pow (Nat.or_lt_two_pow
    (Nat.or_lt_two_pow (Nat.or_lt_two_pow (Nat.or_lt_two_pow ?_ ?_) ?_) ?_) ?_) ?_) ?_) ?_ <;>
    omega

/-- The low 16 bits of a freshly constructed move: move type, origin
square, destination square and aux data, in their digest layout. -/
theorem moveDigest_moveNew (us moveType piece origSquare destSquare capturedPiece
    enPassantFile castling promotedPieceCode : Nat)
    (hmt : moveType ≤ 3) (horig : origSquare ≤ 63) (hdest : destSquare ≤ 63)
    (hpp : promotedPieceCode ≤ 3) :
    moveDigest (moveNew us moveType piece origSquare destSquare capturedPiece
        enPassantFile castling promotedPieceCode) =
      moveType <<< 14 ||| origSquare <<< 8 ||| destSquare <<< 2 |||
        (if moveType = MOVE_PROMOTION then promotedPieceCode else 0) <<< 0 := by
  have h32 : ∀ x : Nat, (x <<< 32) % 2 ^ 16 = 0 :=
    fun x => shiftLeft_mod_two_pow_eq_zero x 32 16 (by omega)
  have h27 : ∀ x : Nat, (x <<< 27) % 2 ^ 16 = 0 :=
    fun x => shiftLeft_mod_two_pow_eq_zero x 27 16 (by omega)
  have h24 : ∀ x : Nat, (x <<< 24) % 2 ^ 16 = 0 :=
    fun x => shiftLeft_mod_two_pow_eq_zero x 24 16 (by omega)
  have h20 : ∀ x : Nat, (x <<< 20) % 2 ^ 16 = 0 :=
    fun x => shiftLeft_mod_two_pow_eq_zero x 20 16 (by omega)
  have h16 : ∀ x : Nat, (x <<< 16) % 2 ^ 16 = 0 :=
    fun x => shiftLeft_mod_two_pow_eq_zero x 16 16 (by omega)
  have h14 : (moveType <<< 14) % 2 ^ 16 = moveType <<< 14 :=
    Nat.mod_eq_of_lt (by rw [Nat.shiftLeft_eq]; omega)
  have h08 : (origSquare <<< 8) % 2 ^ 16 = origSquare <<< 8 :=
    Nat.mod_eq_of_lt (by rw [Nat.shiftLeft_eq]; omega)
  have h02 : (destSquare <<< 2) % 2 ^ 16 = destSquare <<< 2 :=
    Nat.mod_eq_of_lt (by rw [Nat.shiftLeft_eq]; omega)
  have hax : ∀ a : Nat, a ≤ 3 → (a <<< 0) % 2 ^ 16 = a <<< 0 := by
    intro a ha
    exact Nat.mod_eq_of_lt (by rw [Nat.shiftLeft_eq]; omega)
  unfold moveDigest moveNew
  by_cases hp : moveType = MOVE_PROMOTION
  · by_cases hpp0 : promotedPieceCode = 0
    · simp only [if_pos hp, if_pos hpp0, mod_two_pow_or_distrib, h32, h27, h24, h20, h16,
        h14, h08, h02, hax _ hpp, Nat.zero_or]
    · simp only [if_pos hp, if_neg hpp0, mod_two_pow_or_distrib, h32, h27, h24, h20, h16,
        h14, h08, h02, hax _ hpp, Nat.zero_or]
  · by_cases hc : capturedPiece = NO_PIECE
    · simp only [if_neg hp, if_pos hc, mod_two_pow_or_distrib, h32, h27, h24, h20, h16,
        h14, h08, h02, hax 0 (by omega), Nat.zero_or]
    · simp only [if_neg hp, if_neg hc, mod_two_pow_or_distrib, h32, h27, h24, h20, h16,
        h14, h08, h02, hax 0 (by omega), Nat.zero_or]

/-! ## Claim theorems: C8 and C9 -/

/-- **C8.** For every move constructed by `Move::new` (with arguments
inside the bounds the source asserts), the initial 32-bit ordering
score is: the maximum score for every capture that is not an
underpromotion and for every promotion to queen, one less than the
maximum for promotions to pieces other than queen, and 0 for all other
(quiet) moves. -/
theorem moveNew_initial_score (us moveType piece origSquare destSquare capturedPiece
    enPassantFile castling promotedPieceCode : Nat)
    (hpiece : piece < NO_PIECE) (hcr : castling ≤ 15) (hep : enPassantFile ≤ 15)
    (hmt : moveType ≤ 3) (horig : origSquare ≤ 63) (hdest : destSquare ≤ 63)
    (hpp : promotedPieceCode ≤ 3) :
    (capturedPiece ≠ NO_PIECE → moveType ≠ MOVE_PROMOTION →
      moveScore (moveNew us moveType piece origSquare destSquare capturedPiece
        enPassantFile castling promotedPieceCode) = MOVE_SCORE_MAX) ∧
    (moveType = MOVE_PROMOTION → promotedPieceCode = 0 →
      moveScore (moveNew us moveType piece origSquare destSquare capturedPiece
        enPassantFile castling promotedPieceCode) = MOVE_SCORE_MAX) ∧
    (moveType = MOVE_PROMOTION → promotedPieceCode ≠ 0 →
      moveScore (moveNew us moveType piece origSquare destSquare capturedPiece
        enPassantFile castling promotedPieceCode) = MOVE_SCORE_MAX - 1) ∧
    (capturedPiece = NO_PIECE → moveType ≠ MOVE_PROMOTION →
      moveScore (moveNew us moveType piece origSquare destSquare capturedPiece
        enPassantFile castling promotedPieceCode) = 0) := by
  have hp8 : piece < 8 := by
    unfold NO_PIECE at hpiece
    omega
  have hmax : MOVE_SCORE_MAX < 2 ^ 32 := by
    unfold MOVE_SCORE_MAX
    omega
  refine ⟨?_, ?_, ?_, ?_⟩
  · intro hc hm
    unfold moveNew
    simp only [if_neg hm, if_neg hc]
    exact moveScore_of_or _ _ hmax
      (moveNew_low_lt capturedPiece piece castling enPassantFile moveType origSquare
        destSquare 0 hp8 hcr hep hmt horig hdest (by omega))
  · intro hm hq
    unfold moveNew
    simp only [if_pos hm, if_pos hq]
    exact moveScore_of_or _ _ hmax
      (moveNew_low_lt capturedPiece piece castling enPassantFile moveType origSquare
        destSquare promotedPieceCode hp8 hcr hep hmt horig hdest hpp)
  · intro hm hq
    unfold moveNew
    simp only [if_pos hm, if_neg hq]
    exact moveScore_of_or _ _ (by omega)
      (moveNew_low_lt capturedPiece piece castling enPassantFile moveType origSquare
        destSquare promotedPieceCode hp8 hcr hep hmt horig hdest hpp)
  · intro hc hm
    unfold moveNew
    simp only [if_neg hm, if_pos hc]
    exact moveScore_of_or _ _ (by omega)
      (moveNew_low_lt capturedPiece piece castling enPassantFile moveType origSquare
        destSquare 0 hp8 hcr hep hmt horig hdest (by omega))

/-- Witness for `moveNew_initial_score`: a quiet pawn push e2-e4 gets
initial score 0, and a queen capture by a rook gets the maximum
score. -/
theorem moveNew_initial_score_witness :
    moveScore (moveNew 0 MOVE_NORMAL PAWN 12 28 NO_PIECE 8 0 0) = 0 ∧
    moveScore (moveNew 0 MOVE_NORMAL ROOK 0 8 QUEEN 8 0 0) = MOVE_SCORE_MAX := by
  constructor
  · exact (moveNew_initial_score 0 MOVE_NORMAL PAWN 12 28 NO_PIECE 8 0 0 (by decide)
      (by decide) (by decide) (by decide) (by decide) (by decide) (by decide)).2.2.2 rfl
      (by decide)
  · exact (moveNew_initial_score 0 MOVE_NORMAL ROOK 0 8 QUEEN 8 0 0 (by decide)
      (by decide) (by decide) (by decide) (by decide) (by decide) (by decide)).1
      (by decide) (by decide)

/-- **C9.** Every move the generator can produce has a non-zero 16-bit
digest, and the invalid move has all 64 bits zero, so its digest is
zero.  The generator constraint `moveType = MOVE_ENPASSANT → 16 ≤
destSquare` is modelled from the spec (sections 3 and 4.3): en-passant
captures land on the en-passant square, which lies on rank index 2 or 5
(squares 16..47); all other move types have a non-zero move-type
field. -/
theorem moveDigest_ne_zero_iff_valid (us moveType piece origSquare destSquare
    capturedPiece enPassantFile castling promotedPieceCode : Nat)
    (hmt : moveType ≤ 3) (horig : origSquare ≤ 63) (hdest : destSquare ≤ 63)
    (hpp : promotedPieceCode ≤ 3)
    (hgen : moveType = MOVE_ENPASSANT → 16 ≤ destSquare) :
    moveDigest (moveNew us moveType piece origSquare destSquare capturedPiece
      enPassantFile castling promotedPieceCode) ≠ 0 ∧
    moveInvalid = 0 ∧ moveDigest moveInvalid = 0 := by
  refine ⟨?_, rfl, rfl⟩
  rw [moveDigest_moveNew us moveType piece origSquare destSquare capturedPiece
    enPassantFile castling promotedPieceCode hmt horig hdest hpp]
  intro h0
  have h1 := (or_eq_zero_iff _ _).mp h0
  have h2 := (or_eq_zero_iff _ _).mp h1.1
  have h3 := (or_eq_zero_iff _ _).mp h2.1
  have hmt0 : moveType = 0 := by
    have := h3.1
    rw [Nat.shiftLeft_eq] at this
    omega
  have hdest0 : destSquare = 0 := by
    have := h2.2
    rw [Nat.shiftLeft_eq] at this
    omega
  have h16 := hgen (by rw [hmt0]; rfl)
  omega

/-- Witness for `moveDigest_ne_zero_iff_valid`: the en-passant capture
e5xd6 has a non-zero digest, and the invalid move is all-zero. -/
theorem moveDigest_ne_zero_iff_valid_witness :
    moveDigest (moveNew 0 MOVE_ENPASSANT PAWN 36 43 PAWN 3 0 0) ≠ 0 ∧
    moveInvalid = 0 ∧ moveDigest moveInvalid = 0 :=
  moveDigest_ne_zero_iff_valid 0 MOVE_ENPASSANT PAWN 36 43 PAWN 3 0 0 (by decide)
    (by decide) (by decide) (by decide) (fun _ => by decide)

/-! ### List helper lemmas for the loop -/

theorem getD_set_self (l : List Nat) (k v : Nat) (h : k < l.length) :
    (l.set k v).getD k 0 = v := by
  simp [List.getD_eq_getElem?_getD, List.getElem?_set_self h]

theorem getD_set_ne (l : List Nat) (k v idx : Nat) (h : k ≠ idx) :
    (l.set k v).getD idx 0 = l.getD idx 0 := by
  simp [List.getD_eq_getElem?_getD, List.getElem?_set_ne h]

theorem getD_cons_set_perm :
    ∀ (t : List Nat) (i x : Nat), i < t.length →
      (t.getD i 0 :: t.set i x).Perm (x :: t)
  | [], i, x, h => by simp at h
  | y :: u, 0, x, _ => by
    simpa using List.Perm.swap x y u
  | y :: u, i + 1, x, h => by
    have ih := getD_cons_set_perm u i x (by simpa using h)
    have h1 : (u.getD i 0 :: y :: u.set i x).Perm (y :: u.getD i 0 :: u.set i x) :=
      List.Perm.swap y (u.getD i 0) (u.set i x)
    have h2 : (y :: u.getD i 0 :: u.set i x).Perm (y :: x :: u) := ih.cons y
    have h3 : (y :: x :: u).Perm (x :: y :: u) := List.Perm.swap x y u
    simpa using (h1.trans h2).trans h3

/-- Swapping the entries at positions `j < i` of a list yields a
permutation of it. -/
theorem transposition_perm :
    ∀ (l : List Nat) (i j : Nat), j < i → i < l.length →
      ((l.set i (l.getD j 0)).set j (l.getD i 0)).Perm l
  | [], _, _, _, h => by simp at h
  | x :: t, i + 1, 0, _, hi => by
    have hlen : i < t.length := by simpa using hi
    simpa using getD_cons_set_perm t i x hlen
  | x :: t, i + 1, j + 1, hj, hi => by
    have hlen : i < t.length := by simpa using hi
    have ih := transposition_perm t i j (by omega) hlen
    simpa using ih.cons x

theorem getD_drop (l : List Nat) (f k : Nat) (hf : f ≤ k) :
    (l.drop f).getD (k - f) 0 = l.getD k 0 := by
  have : f + (k - f) = k := by omega
  simp [List.getD_eq_getElem?_getD, List.getElem?_drop, this]

/-- What one pass of the selection loop guarantees: the list keeps its
length, the candidate lives at index `i`, the candidate only grows, it
dominates all inspected positions, and the current part of the list is
only permuted. -/
theorem rbStep_spec (i fmi n : Nat) (moves : List Nat) (m : Nat)
    (hni : fmi + n ≤ i) (hi : i < moves.length) (hgm : moves.getD i 0 = m)
    (hmax : ∀ k, fmi + n < k → k ≤ i → moves.getD k 0 ≤ m) :
    (rbStep i fmi n moves m).1.length = moves.length ∧
    (rbStep i fmi n moves m).1.getD i 0 = (rbStep i fmi n moves m).2 ∧
    m ≤ (rbStep i fmi n moves m).2 ∧
    (∀ k, fmi + n ≤ k → k ≤ i →
      (rbStep i fmi n moves m).1.getD k 0 ≤ (rbStep i fmi n moves m).2) ∧
    ((rbStep i fmi n moves m).1.drop fmi).Perm (moves.drop fmi) := by
  unfold rbStep
  by_cases hsw : m < moves.getD (fmi + n) 0
  · have hji : fmi + n ≠ i := by
      intro h
      rw [h, hgm] at hsw
      exact lt_irrefl m hsw
    simp only [if_pos hsw]
    have hset1 : ((moves.set i (moves.getD (fmi + n) 0)).set (fmi + n) m).getD i 0 =
        moves.getD (fmi + n) 0 := by
      rw [getD_set_ne _ _ _ _ hji, getD_set_self _ _ _ hi]
    refine ⟨by simp, by trivial, ?_, ?_, ?_⟩
    · rw [hset1]
      exact Nat.le_of_lt hsw
    · intro k hk1 hk2
      rw [hset1]
      by_cases hkj : k = fmi + n
      · subst hkj
        rw [getD_set_self _ _ _ (by simpa using Nat.lt_of_le_of_lt hni hi)]
        exact Nat.le_of_lt hsw
      · by_cases hki : k = i
        · subst hki
          rw [hset1]
        · rw [getD_set_ne _ _ _ _ (Ne.symm hkj), getD_set_ne _ _ _ _ (Ne.symm hki)]
          exact Nat.le_of_lt (Nat.lt_of_le_of_lt (hmax k (by omega) hk2) hsw)
    · rw [List.drop_set, List.drop_set, if_neg (by omega : ¬ i < fmi),
        if_neg (by omega : ¬ fmi + n < fmi)]
      have e1 : moves.getD (fmi + n) 0 = (moves.drop fmi).getD (fmi + n - fmi) 0 :=
        (getD_drop moves fmi (fmi + n) (by omega)).symm
      have e2 : m = (moves.drop fmi).getD (i - fmi) 0 := by
        rw [getD_drop moves fmi i (by omega), hgm]
      rw [e1, e2]
      exact transposition_perm (moves.drop fmi) (i - fmi) (fmi + n - fmi) (by omega)
        (by simp [List.length_drop]; omega)
  · simp only [if_neg hsw]
    refine ⟨by trivial, by exact hgm, by exact Nat.le_refl m, ?_, by exact List.Perm.refl _⟩
    intro k hk1 hk2
    by_cases hkj : k = fmi + n
    · subst hkj
      exact Nat.not_lt.mp hsw
    · exact hmax k (by omega) hk2

/-- The selection loop of `remove_best_move` keeps the list length,
parks the running maximum at index `i`, dominates every position of
the current list, and only permutes the current part. -/
theorem rbLoop_spec (i fmi : Nat) :
    ∀ (n : Nat) (moves : List Nat) (m : Nat),
      fmi + n ≤ i → i < moves.length → moves.getD i 0 = m →
      (∀ k, fmi + n < k → k ≤ i → moves.getD k 0 ≤ m) →
      (rbLoop i fmi n moves m).1.length = moves.length ∧
      (rbLoop i fmi n moves m).1.getD i 0 = (rbLoop i fmi n moves m).2 ∧
      (∀ k, fmi ≤ k → k ≤ i →
        (rbLoop i fmi n moves m).1.getD k 0 ≤ (rbLoop i fmi n moves m).2) ∧
      ((rbLoop i fmi n moves m).1.drop fmi).Perm (moves.drop fmi) := by
  intro n
  induction n with
  | zero =>
    intro moves m hni hi hgm hmax
    have hstep := rbStep_spec i fmi 0 moves m hni hi hgm hmax
    exact ⟨hstep.1, hstep.2.1, fun k hk1 hk2 => hstep.2.2.2.1 k (by omega) hk2,
      hstep.2.2.2.2⟩
  | succ k ih =>
    intro moves m hni hi hgm hmax
    have hstep := rbStep_spec i fmi (k + 1) moves m hni hi hgm hmax
    have hrec := ih (rbStep i fmi (k + 1) moves m).1 (rbStep i fmi (k + 1) moves m).2
      (by omega) (hstep.1 ▸ hi) hstep.2.1
      (fun k' hk1 hk2 => hstep.2.2.2.1 k' (by omega) hk2)
    have hunfold : rbLoop i fmi (k + 1) moves m =
        rbLoop i fmi k (rbStep i fmi (k + 1) moves m).1 (rbStep i fmi (k + 1) moves m).2 :=
      rfl
    rw [hunfold]
    exact ⟨hrec.1.trans hstep.1, hrec.2.1, hrec.2.2.1, hrec.2.2.2.trans hstep.2.2.2.2⟩

/-! ## Claim theorem: C10 -/

/-- **C10.** For every `MoveStack` state (with the representation
invariant `first_move_index ≤ moves.len()` that the source asserts),
`remove_best_move` returns `None` if and only if the current move list
is empty; otherwise it removes and returns a maximal element of the
current move list with respect to the 64-bit move ordering (highest
score first), shortens the current list by exactly one, and the
remaining moves are exactly the other elements of the previous
list. -/
theorem removeBestMove_spec (s : MoveStack) (hfmi : s.firstMoveIndex ≤ s.moves.length) :
    ((removeBestMove s).1 = none ↔ s.current = []) ∧
    (∀ m t, removeBestMove s = (some m, t) →
      (∀ x ∈ s.current, x ≤ m) ∧
      t.current.length + 1 = s.current.length ∧
      (m :: t.current).Perm s.current) := by
  by_cases hne : s.firstMoveIndex < s.moves.length
  · have hloop := rbLoop_spec (s.moves.length - 1) s.firstMoveIndex
      (s.moves.length - 1 - s.firstMoveIndex) s.moves
      (s.moves.getD (s.moves.length - 1) 0) (by omega) (by omega) rfl
      (fun k hk1 hk2 => by omega)
    have hresult : removeBestMove s =
        (some (rbLoop (s.moves.length - 1) s.firstMoveIndex
          (s.moves.length - 1 - s.firstMoveIndex) s.moves
          (s.moves.getD (s.moves.length - 1) 0)).2,
         { s with moves := (rbLoop (s.moves.length - 1) s.firstMoveIndex
            (s.moves.length - 1 - s.firstMoveIndex) s.moves
            (s.moves.getD (s.moves.length - 1) 0)).1.dropLast }) := by
      unfold removeBestMove
      rw [if_pos hne]
    have hcur : ¬ s.current = [] := by
      unfold MoveStack.current
      rw [List.drop_eq_nil_iff]
      omega
    constructor
    · rw [hresult]
      exact iff_of_false (by simp) hcur
    · intro m t heq
      rw [hresult] at heq
      have hm : m = (rbLoop (s.moves.length - 1) s.firstMoveIndex
          (s.moves.length - 1 - s.firstMoveIndex) s.moves
          (s.moves.getD (s.moves.length - 1) 0)).2 := by
        have := congrArg Prod.fst heq
        simpa using this.symm
      have ht : t = { s with moves := (rbLoop (s.moves.length - 1) s.firstMoveIndex
          (s.moves.length - 1 - s.firstMoveIndex) s.moves
          (s.moves.getD (s.moves.length - 1) 0)).1.dropLast } := by
        have := congrArg Prod.snd heq
        simpa using this.symm
      subst hm
      subst ht
      have hr1len : (rbLoop (s.moves.length - 1) s.firstMoveIndex
          (s.moves.length - 1 - s.firstMoveIndex) s.moves
          (s.moves.getD (s.moves.length - 1) 0)).1.length = s.moves.length := hloop.1
      have hr1ne : (rbLoop (s.moves.length - 1) s.firstMoveIndex
          (s.moves.length - 1 - s.firstMoveIndex) s.moves
          (s.moves.getD (s.moves.length - 1) 0)).1 ≠ [] := by
        intro h
        rw [h] at hr1len
        simp at hr1len
        omega
      have hsplit : (rbLoop (s.moves.length - 1) s.firstMoveIndex
          (s.moves.length - 1 - s.firstMoveIndex) s.moves
          (s.moves.getD (s.moves.length - 1) 0)).1.dropLast ++
            [(rbLoop (s.moves.length - 1) s.firstMoveIndex
              (s.moves.length - 1 - s.firstMoveIndex) s.moves
              (s.moves.getD (s.moves.length - 1) 0)).2] =
          (rbLoop (s.moves.length - 1) s.firstMoveIndex
            (s.moves.length - 1 - s.firstMoveIndex) s.moves
            (s.moves.getD (s.moves.length - 1) 0)).1 := by
        have hlast := List.dropLast_concat_getLast hr1ne
        have hlv : (rbLoop (s.moves.length - 1) s.firstMoveIndex
            (s.moves.length - 1 - s.firstMoveIndex) s.moves
            (s.moves.getD (s.moves.length - 1) 0)).1.getLast hr1ne =
            (rbLoop (s.moves.length - 1) s.firstMoveIndex
              (s.moves.length - 1 - s.firstMoveIndex) s.moves
              (s.moves.getD (s.moves.length - 1) 0)).2 := by
          rw [List.getLast_eq_getElem, ← List.getD_eq_getElem _ 0 (by omega), hr1len]
          exact hloop.2.1
        rw [hlv] at hlast
        exact hlast
      have hdropsplit : (rbLoop (s.moves.length - 1) s.firstMoveIndex
          (s.moves.length - 1 - s.firstMoveIndex) s.moves
          (s.moves.getD (s.moves.length - 1) 0)).1.drop s.firstMoveIndex =
          ((rbLoop (s.moves.length - 1) s.firstMoveIndex
            (s.moves.length - 1 - s.firstMoveIndex) s.moves
            (s.moves.getD (s.moves.length - 1) 0)).1.dropLast.drop s.firstMoveIndex) ++
            [(rbLoop (s.moves.length - 1) s.firstMoveIndex
              (s.moves.length - 1 - s.firstMoveIndex) s.moves
              (s.moves.getD (s.moves.length - 1) 0)).2] := by
        conv_lhs => rw [← hsplit]
        refine List.drop_append_of_le_length ?_
        rw [List.length_dropLast, hr1len]
        omega
      refine ⟨?_, ?_, ?_⟩
      · intro x hx
        have hxr : x ∈ (rbLoop (s.moves.length - 1) s.firstMoveIndex
            (s.moves.length - 1 - s.firstMoveIndex) s.moves
            (s.moves.getD (s.moves.length - 1) 0)).1.drop s.firstMoveIndex :=
          (hloop.2.2.2.mem_iff).mpr hx
        obtain ⟨idx, hidx, hval⟩ := List.mem_iff_getElem.mp hxr
        rw [List.length_drop, hr1len] at hidx
        have hlt : s.firstMoveIndex + idx < (rbLoop (s.moves.length - 1) s.firstMoveIndex
            (s.moves.length - 1 - s.firstMoveIndex) s.moves
            (s.moves.getD (s.moves.length - 1) 0)).1.length := by
          rw [hr1len]
          omega
        have hgd : (rbLoop (s.moves.length - 1) s.firstMoveIndex
            (s.moves.length - 1 - s.firstMoveIndex) s.moves
            (s.moves.getD (s.moves.length - 1) 0)).1.getD (s.firstMoveIndex + idx) 0 = x := by
          rw [List.getD_eq_getElem _ 0 hlt, ← List.getElem_drop]
          exact hval
        rw [← hgd]
        exact hloop.2.2.1 (s.firstMoveIndex + idx) (by omega) (by omega)
      · show ((rbLoop (s.moves.length - 1) s.firstMoveIndex
            (s.moves.length - 1 - s.firstMoveIndex) s.moves
            (s.moves.getD (s.moves.length - 1) 0)).1.dropLast.drop s.firstMoveIndex).length + 1 =
          (s.moves.drop s.firstMoveIndex).length
        rw [List.length_drop, List.length_drop, List.length_dropLast, hr1len]
        omega
      · show ((rbLoop (s.moves.length - 1) s.firstMoveIndex
            (s.moves.length - 1 - s.firstMoveIndex) s.moves
            (s.moves.getD (s.moves.length - 1) 0)).2 ::
            (rbLoop (s.moves.length - 1) s.firstMoveIndex
              (s.moves.length - 1 - s.firstMoveIndex) s.moves
              (s.moves.getD (s.moves.length - 1) 0)).1.dropLast.drop s.firstMoveIndex).Perm
          (s.moves.drop s.firstMoveIndex)
        have hp1 : ((rbLoop (s.moves.length - 1) s.firstMoveIndex
            (s.moves.length - 1 - s.firstMoveIndex) s.moves
            (s.moves.getD (s.moves.length - 1) 0)).2 ::
            (rbLoop (s.moves.length - 1) s.firstMoveIndex
              (s.moves.length - 1 - s.firstMoveIndex) s.moves
              (s.moves.getD (s.moves.length - 1) 0)).1.dropLast.drop s.firstMoveIndex).Perm
            ((rbLoop (s.moves.length - 1) s.firstMoveIndex
              (s.moves.length - 1 - s.firstMoveIndex) s.moves
              (s.moves.getD (s.moves.length - 1) 0)).1.drop s.firstMoveIndex) := by
          rw [hdropsplit]
          exact (List.perm_append_singleton _ _).symm
        exact hp1.trans hloop.2.2.2
  · have hresult : removeBestMove s = (none, s) := by
      unfold removeBestMove
      rw [if_neg hne]
    constructor
    · rw [hresult]
      refine iff_of_true rfl ?_
      unfold MoveStack.current
      rw [List.drop_eq_nil_iff]
      omega
    · intro m t heq
      rw [hresult] at heq
      exact absurd (congrArg Prod.fst heq) (by simp)

/-- Witness for `removeBestMove_spec`: on the stack holding the current
move list `[5, 9, 3]`, the best move 9 is removed and `[5, 3]`
remains. -/
theorem removeBestMove_spec_witness :
    (∀ x ∈ (MoveStack.mk [5, 9, 3] [] 0).current, x ≤ 9) ∧
    (MoveStack.mk [5, 3] [] 0).current.length + 1 =
      (MoveStack.mk [5, 9, 3] [] 0).current.length ∧
    ((9 : Nat) :: (MoveStack.mk [5, 3] [] 0).current).Perm
      (MoveStack.mk [5, 9, 3] [] 0).current :=
  (removeBestMove_spec (MoveStack.mk [5, 9, 3] [] 0) (by decide)).2 9
    (MoveStack.mk [5, 3] [] 0) (by decide)

theorem pvsMoveLoop_agrees (child : Nat → Int → Int → Int) (beta : Int) :
    ∀ (moves : List Nat) (alpha : Int) (bound : Nat) (flag : Bool),
      bound ≠ BOUND_LOWER →
      (pvsMoveLoop child beta moves alpha bound flag).1 =
        (pvsMoveLoopFromSpec child beta moves alpha flag).1 ∧
      ((pvsMoveLoop child beta moves alpha bound flag).2 = BOUND_LOWER ↔
        (pvsMoveLoopFromSpec child beta moves alpha flag).2 = true) ∧
      ((pvsMoveLoop child beta moves alpha bound flag).2 = BOUND_LOWER →
        (pvsMoveLoop child beta moves alpha bound flag).1 = beta) := by
  intro moves
  induction moves with
  | nil =>
    intro alpha bound flag hb
    refine ⟨rfl, ?_, ?_⟩
    · simp [pvsMoveLoop, pvsMoveLoopFromSpec, hb]
    · intro h
      exact absurd h hb
  | cons mv rest ih =>
    intro alpha bound flag hb
    have hval : (if flag then -(child mv (-beta) (-alpha))
        else
          let x := -(child mv (-alpha - 1) (-alpha))
          if x ≤ alpha then x else -(child mv (-beta) (-alpha))) =
        (if flag then -(child mv (-beta) (-alpha))
        else
          let x := -(child mv (-alpha - 1) (-alpha))
          if alpha < x then -(child mv (-beta) (-alpha)) else x) := by
      by_cases hf : flag
      · simp [hf]
      · simp only [hf, if_neg]
        by_cases hx : -(child mv (-alpha - 1) (-alpha)) ≤ alpha
        · rw [if_pos hx, if_neg (Int.not_lt.mpr hx)]
        · rw [if_neg hx, if_pos (Int.not_le.mp hx)]
    show (pvsMoveLoop child beta (mv :: rest) alpha bound flag).1 = _ ∧ _ ∧ _
    unfold pvsMoveLoop pvsMoveLoopFromSpec
    rw [← hval]
    by_cases hcut : beta ≤ (if flag then -(child mv (-beta) (-alpha))
        else
          let x := -(child mv (-alpha - 1) (-alpha))
          if x ≤ alpha then x else -(child mv (-beta) (-alpha)))
    · simp only [if_pos hcut]
      exact ⟨by trivial, by simp [BOUND_LOWER], fun _ => by trivial⟩
    · simp only [if_neg hcut]
      by_cases himp : alpha < (if flag then -(child mv (-beta) (-alpha))
          else
            let x := -(child mv (-alpha - 1) (-alpha))
            if x ≤ alpha then x else -(child mv (-beta) (-alpha)))
      · simp only [if_pos himp]
        exact ih _ BOUND_EXACT false (by simp [BOUND_EXACT, BOUND_LOWER])
      · simp only [if_neg himp]
        exact ih _ bound false hb

/-! ## Claim theorem: C4 -/

/-- **C4.** In the alpha-beta node's move loop, the first child move is
searched with the full window `(-beta, -alpha)`; every subsequent move
is first searched with the null window `(-alpha-1, -alpha)` and is
re-searched with the full window exactly when its null-window result
exceeds alpha; alpha is raised to the returned value when it improves
on alpha; and the node cuts off, returning beta with a lower bound,
when a value `>= beta` is found.  Formally: the source's move loop
computes exactly the value of the loop transcribed from the
specification sentence, its `BOUND_LOWER` result coincides with the
spec loop's cutoff, and a lower-bound result always carries the value
`beta`. -/
theorem pvsMoveLoopRun_matches_spec (child : Nat → Int → Int → Int)
    (moves : List Nat) (alpha beta : Int) :
    (pvsMoveLoopRun child moves alpha beta).1 =
      (pvsMoveLoopFromSpec child beta moves alpha true).1 ∧
    ((pvsMoveLoopRun child moves alpha beta).2 = BOUND_LOWER ↔
      (pvsMoveLoopFromSpec child beta moves alpha true).2 = true) ∧
    ((pvsMoveLoopRun child moves alpha beta).2 = BOUND_LOWER →
      (pvsMoveLoopRun child moves alpha beta).1 = beta) :=
  pvsMoveLoop_agrees child beta moves alpha BOUND_UPPER true
    (by simp [BOUND_UPPER, BOUND_LOWER])

/-! ## Claim C5: counterexample, amended theorem and witness -/

/-- Counterexample to **C5** as stated: the aspiration searcher of
src/search/mod.rs starts, for a known predicted value 0 inside the
requested bounds (-100, 100), with `alpha = -17`, not
`max (0 - 16, -100) = -16`: its initial half-width is 17 (line 356,
`self.delta = 17; // TODO: make this 16?`), not 16. -/
theorem aspiration_initial_window_counterexample :
    (startSearchWindowModRs 0 (-100) 100).1 = -17 ∧
    (startSearchWindowModRs 0 (-100) 100).2.2 = 17 ∧
    (startSearchWindowModRs 0 (-100) 100).1 ≠ max ((0 : Int) - 16) (-100) := by
  refine ⟨by decide, by decide, by decide⟩

/-- **C5 (amended).** For every search started by an aspiration
wrapper with a known predicted value `v` inside the requested bounds:
the `AspirationSearcher` of src/search/deepening.rs
(`calc_initial_aspiration_window`, seeded from an exact TT entry of
sufficient depth) uses the initial half-width 16, i.e.
`alpha = max (v - 16) lower` and `beta = min (v + 16) upper`, while
the older `AspirationSearcher::start_search` of src/search/mod.rs uses
the half-width 17.  On every fail-low or fail-high the failing side is
recomputed from the returned value using the current delta, after
which delta is updated to `delta + 3*delta/8`, being set to 1,000,000
once it exceeds 1500. -/
theorem aspirationWindow_behaviour :
    (∀ (lb ub v : Int) (edepth pdepth : Nat),
      VALUE_MIN ≤ lb → ub ≤ VALUE_MAX → lb < v → v < ub →
      4 ≤ edepth → pdepth ≤ edepth + 2 →
      calcInitialAspirationWindow lb ub pdepth (some (v, edepth, BOUND_EXACT)) =
        { alpha := max (v - 16) lb
          beta := min (v + 16) ub
          delta := 16
          expectedToFailHigh := false }) ∧
    (∀ (lb ub v : Int),
      v ≠ VALUE_UNKNOWN → lb ≤ v → v ≤ ub →
      startSearchWindowModRs v lb ub = (max (v - 17) lb, min (v + 17) ub, 17)) ∧
    (∀ (lb ub : Int) (lmr : Bool) (w : AspWindow) (v : Int),
      (lb < w.alpha ∧ lb < v ∧ v ≤ w.alpha) ∨ (lmr ∧ w.expectedToFailHigh ∧ v < ub) →
      widenAspirationWindow lb ub lmr w v =
        (true,
          { alpha := max (v - w.delta) lb
            beta := w.beta
            delta := if 1500 < w.delta + 3 * w.delta / 8 then 1000000
                     else w.delta + 3 * w.delta / 8
            expectedToFailHigh := false })) ∧
    (∀ (lb ub : Int) (lmr : Bool) (w : AspWindow) (v : Int),
      ¬((lb < w.alpha ∧ lb < v ∧ v ≤ w.alpha) ∨ (lmr ∧ w.expectedToFailHigh ∧ v < ub)) →
      (w.beta < ub ∧ w.beta ≤ v ∧ v < ub) →
      widenAspirationWindow lb ub lmr w v =
        (true,
          { alpha := w.alpha
            beta := min (v + w.delta) ub
            delta := if 1500 < w.delta + 3 * w.delta / 8 then 1000000
                     else w.delta + 3 * w.delta / 8
            expectedToFailHigh := false })) := by
  refine ⟨?_, ?_, ?_, ?_⟩
  · intro lb ub v edepth pdepth hmin hmax hlv hvu h4 hd
    have hL : BOUND_EXACT &&& BOUND_LOWER ≠ 0 := by decide
    have hU : BOUND_EXACT &&& BOUND_UPPER ≠ 0 := by decide
    simp only [calcInitialAspirationWindow, if_pos (And.intro h4 hd), if_pos hL, if_pos hU]
    rw [if_neg (by omega : ¬ ub ≤ max (v - 16) VALUE_MIN)]
    rw [if_neg (by omega : ¬ min (v + 16) VALUE_MAX ≤ lb)]
    simp only [AspWindow.mk.injEq]
    refine ⟨by omega, by omega, by trivial, by trivial⟩
  · intro lb ub v hvu hlv hvu2
    unfold startSearchWindowModRs
    rw [if_neg (by push_neg; exact ⟨hvu, by omega, by omega⟩)]
  · intro lb ub lmr w v hcond
    unfold widenAspirationWindow
    rw [if_pos hcond]
    rfl
  · intro lb ub lmr w v hnot hcond
    unfold widenAspirationWindow
    rw [if_neg hnot, if_pos hcond]
    rfl

/-- Witness for `aspirationWindow_behaviour`, instantiating all four
parts at concrete inputs. -/
theorem aspirationWindow_behaviour_witness :
    calcInitialAspirationWindow (-1000) 1000 12 (some (0, 10, BOUND_EXACT)) =
      { alpha := max ((0 : Int) - 16) (-1000)
        beta := min ((0 : Int) + 16) 1000
        delta := 16
        expectedToFailHigh := false } ∧
    startSearchWindowModRs 0 (-1000) 1000 =
      (max ((0 : Int) - 17) (-1000), min ((0 : Int) + 17) 1000, 17) ∧
    widenAspirationWindow (-1000) 1000 false
        { alpha := -16, beta := 16, delta := 16, expectedToFailHigh := false } (-16) =
      (true,
        { alpha := max ((-16 : Int) - 16) (-1000)
          beta := 16
          delta := if 1500 < (16 : Int) + 3 * 16 / 8 then 1000000 else 16 + 3 * 16 / 8
          expectedToFailHigh := false }) ∧
    widenAspirationWindow (-1000) 1000 false
        { alpha := -16, beta := 16, delta := 16, expectedToFailHigh := false } 20 =
      (true,
        { alpha := -16
          beta := min ((20 : Int) + 16) 1000
          delta := if 1500 < (16 : Int) + 3 * 16 / 8 then 1000000 else 16 + 3 * 16 / 8
          expectedToFailHigh := false }) := by
  refine ⟨?_, ?_, ?_, ?_⟩
  · exact aspirationWindow_behaviour.1 (-1000) 1000 0 10 12 (by decide) (by decide)
      (by decide) (by decide) (by decide) (by decide)
  · exact aspirationWindow_behaviour.2.1 (-1000) 1000 0 (by decide) (by decide) (by decide)
  · exact aspirationWindow_behaviour.2.2.1 (-1000) 1000 false
      { alpha := -16, beta := 16, delta := 16, expectedToFailHigh := false } (-16)
      (Or.inl (by refine ⟨by decide, by decide, by decide⟩))
  · exact aspirationWindow_behaviour.2.2.2 (-1000) 1000 false
      { alpha := -16, beta := 16, delta := 16, expectedToFailHigh := false } 20
      (by decide) (by refine ⟨by decide, by decide, by decide⟩)

/-! ### Generic list and bit helper lemmas for the table proofs -/

theorem getD_set_self2 {α : Type} (l : List α) (k : Nat) (v d : α) (h : k < l.length) :
    (l.set k v).getD k d = v := by
  simp [List.getD_eq_getElem?_getD, List.getElem?_set_self h]

theorem getD_set_ne2 {α : Type} (l : List α) (k : Nat) (v d : α) (idx : Nat) (h : k ≠ idx) :
    (l.set k v).getD idx d = l.getD idx d := by
  simp [List.getD_eq_getElem?_getD, List.getElem?_set_ne h]

theorem and_three_eq_mod (x : Nat) : x &&& 3 = x % 4 := by
  have := Nat.and_pow_two_sub_one_eq_mod x 2
  norm_num at this
  exact this

theorem or_of_low (g b : Nat) (hg : g &&& 3 = 0) (hb : b < 4) : g ||| b = g + b := by
  have hg4 : g % 4 = 0 := by
    rw [← and_three_eq_mod]
    exact hg
  have h4 : g = 2 ^ 2 * (g / 4) := by omega
  calc g ||| b = 2 ^ 2 * (g / 4) ||| b := by rw [← h4]
    _ = 2 ^ 2 * (g / 4) + b := (Nat.mul_add_lt_is_or (by omega) _).symm
    _ = g + b := by omega

theorem or_low_bound (g b : Nat) (hg : g &&& 3 = 0) (hb : b < 4) :
    (g ||| b) &&& 3 = b := by
  rw [or_of_low g b hg hb, and_three_eq_mod]
  have hg4 : g % 4 = 0 := by
    rw [← and_three_eq_mod]
    exact hg
  omega

theorem four_mul_add_and (x b y : Nat) (hb : b < 4) :
    (4 * x + b) &&& (4 * y) = 4 * (x &&& y) := by
  have hx : 4 * x + b = x <<< 2 ||| b := by
    calc 4 * x + b = 2 ^ 2 * x + b := by norm_num
      _ = 2 ^ 2 * x ||| b := Nat.mul_add_lt_is_or (by omega) x
      _ = x <<< 2 ||| b := by rw [Nat.shiftLeft_eq, Nat.mul_comm]
  have hy : 4 * y = y <<< 2 := by
    rw [Nat.shiftLeft_eq, Nat.mul_comm]
  have hxy : 4 * (x &&& y) = (x &&& y) <<< 2 := by
    rw [Nat.shiftLeft_eq, Nat.mul_comm]
  rw [hx, hy, hxy]
  apply Nat.eq_of_testBit_eq
  intro k
  by_cases hk : k < 2
  · have h1 : Nat.testBit (y <<< 2) k = false := by
      rw [Nat.testBit_shiftLeft]
      simp [show ¬ 2 ≤ k by omega]
    have h2 : Nat.testBit ((x &&& y) <<< 2) k = false := by
      rw [Nat.testBit_shiftLeft]
      simp [show ¬ 2 ≤ k by omega]
    simp [Nat.testBit_and, h1, h2]
  · have hb2 : Nat.testBit b k = false :=
      Nat.testBit_lt_two_pow (lt_of_lt_of_le hb (by
        have : 2 ^ 2 ≤ 2 ^ k := Nat.pow_le_pow_right (by omega) (by omega)
        omega))
    simp [Nat.testBit_and, Nat.testBit_or, Nat.testBit_shiftLeft, hb2,
      show 2 ≤ k by omega]

theorem or_low_generation (g b : Nat) (hg : g &&& 3 = 0) (hb : b < 4) (hlt : g < 256) :
    (g ||| b) &&& 0b11111100 = g := by
  have hg4 : g % 4 = 0 := by
    rw [← and_three_eq_mod]
    exact hg
  rw [or_of_low g b hg hb]
  have h1 : g + b = 4 * (g / 4) + b := by omega
  have h2 : (0b11111100 : Nat) = 4 * 63 := by norm_num
  rw [h1, h2, four_mul_add_and _ _ _ hb]
  have h3 : g / 4 &&& 63 = g / 4 % 64 := by
    have := Nat.and_pow_two_sub_one_eq_mod (g / 4) 6
    norm_num at this
    exact this
  rw [h3]
  omega

/-! ### The pigeonhole argument bounding the `new_search` loop -/

theorem sum_indicator_le_one (x : Nat) :
    ∀ (gs : List Nat), gs.Nodup →
      ((gs.map fun g => if x = g then 1 else 0).sum) ≤ 1 := by
  intro gs
  induction gs with
  | nil => intro _; simp
  | cons g rest ih =>
    intro hnd
    rw [List.map_cons, List.sum_cons]
    by_cases hx : x = g
    · have hz : ((rest.map fun g2 => if x = g2 then 1 else 0).sum) = 0 := by
        apply List.sum_eq_zero
        intro y hy
        obtain ⟨g2, hg2, hval⟩ := List.mem_map.mp hy
        have : x ≠ g2 := by
          intro h
          rw [← h] at hg2
          rw [hx] at hg2
          exact (List.nodup_cons.mp hnd).1 hg2
        rw [← hval, if_neg this]
      rw [hz, if_pos hx]
    · rw [if_neg hx]
      have := ih (List.nodup_cons.mp hnd).2
      omega

theorem sum_countP_le_length (key0 : Record → Bool) (genOf : Record → Nat) :
    ∀ (l : List Record) (gs : List Nat), gs.Nodup →
      ((gs.map fun g => l.countP fun r => key0 r && (genOf r == g)).sum) ≤ l.length := by
  intro l
  induction l with
  | nil => intro gs _; simp [List.countP_nil]
  | cons r t ih =>
    intro gs hnd
    have hsplit : ∀ g : Nat,
        ((r :: t).countP fun r2 => key0 r2 && (genOf r2 == g)) =
          (t.countP fun r2 => key0 r2 && (genOf r2 == g)) +
            (if key0 r && (genOf r == g) then 1 else 0) := by
      intro g
      rw [List.countP_cons]
    have hmap : (gs.map fun g => (r :: t).countP fun r2 => key0 r2 && (genOf r2 == g)) =
        gs.map fun g => (t.countP fun r2 => key0 r2 && (genOf r2 == g)) +
          (if key0 r && (genOf r == g) then 1 else 0) := by
      apply List.map_congr_left
      intro g _
      exact hsplit g
    rw [hmap]
    have hadd : ∀ (f h : Nat → Nat) (L : List Nat),
        (L.map fun g => f g + h g).sum = (L.map f).sum + (L.map h).sum := by
      intro f h L
      induction L with
      | nil => simp
      | cons a L2 ihL =>
        simp only [List.map_cons, List.sum_cons, ihL]
        omega
    rw [hadd]
    have h1 := ih gs hnd
    have h2 : ((gs.map fun g => if key0 r && (genOf r == g) then 1 else 0).sum) ≤ 1 := by
      by_cases hk : key0 r
      · have : (gs.map fun g => if key0 r && (genOf r == g) then 1 else 0) =
            gs.map fun g => if genOf r = g then 1 else 0 := by
          apply List.map_congr_left
          intro g _
          by_cases hg : genOf r = g
          · simp [hk, hg]
          · simp [hk, hg]
        rw [this]
        exact sum_indicator_le_one (genOf r) gs hnd
      · have : (gs.map fun g => if key0 r && (genOf r == g) then 1 else 0) =
            gs.map fun _ => 0 := by
          apply List.map_congr_left
          intro g _
          simp [hk]
        rw [this]
        simp
    simp only [List.length_cons]
    omega

theorem flatten_length_le (bound : Nat) :
    ∀ (l : List (List Record)), (∀ c ∈ l, c.length ≤ bound) →
      l.flatten.length ≤ bound * l.length := by
  intro l
  induction l with
  | nil => intro _; simp
  | cons c t ih =>
    intro h
    rw [List.flatten_cons, List.length_append, List.length_cons]
    have h1 := h c (by simp)
    have h2 := ih fun c2 hc2 => h c2 (by simp [hc2])
    have : bound * (t.length + 1) = bound * t.length + bound := by ring
    omega

theorem sampledRecords_length_le (s : TtState) (hcl : ∀ c ∈ s.table, c.length ≤ 4) :
    (sampledRecords s).length ≤ 512 := by
  unfold sampledRecords
  have h1 : ∀ c ∈ s.table.take (min 128 s.clusterCount), c.length ≤ 4 :=
    fun c hc => hcl c (List.mem_of_mem_take hc)
  have h2 := flatten_length_le 4 _ h1
  have h3 : (s.table.take (min 128 s.clusterCount)).length ≤ 128 := by
    rw [List.length_take]
    omega
  omega

/-- Among five consecutive generation candidates, at least one has
fewer than 128 staled sampled records. -/
theorem staled_candidate_exists (s : TtState) (hcl : ∀ c ∈ s.table, c.length ≤ 4) :
    ∃ j, 1 ≤ j ∧ j ≤ 5 ∧ staledCount s ((s.generation + 4 * j) % 256) < 128 := by
  by_contra hno
  push_neg at hno
  have hbounds : ∀ j, 1 ≤ j → j ≤ 5 →
      128 ≤ (sampledRecords s).countP
        fun r => decide (r.key ≠ 0 ∧ r.generation = (s.generation + 4 * j) % 256) := by
    intro j h1 h2
    exact hno j h1 h2
  have hpred : ∀ g : Nat, ((sampledRecords s).countP
      fun r => decide (r.key ≠ 0 ∧ r.generation = g)) =
      ((sampledRecords s).countP fun r => (decide (r.key ≠ 0)) && (r.generation == g)) := by
    intro g
    apply List.countP_congr
    intro r _
    by_cases h1 : r.key = 0
    · simp [h1]
    · by_cases h2 : r.generation = g <;> simp [h1, h2]
  have hnd : ([(s.generation + 4 * 1) % 256, (s.generation + 4 * 2) % 256,
      (s.generation + 4 * 3) % 256, (s.generation + 4 * 4) % 256,
      (s.generation + 4 * 5) % 256] : List Nat).Nodup := by
    simp only [List.nodup_cons, List.mem_cons, List.mem_singleton, List.not_mem_nil,
      List.nodup_nil]
    push_neg
    and_intros <;> first | omega | trivial
  have hsum := sum_countP_le_length (fun r => decide (r.key ≠ 0)) Record.generation
    (sampledRecords s)
    [(s.generation + 4 * 1) % 256, (s.generation + 4 * 2) % 256,
      (s.generation + 4 * 3) % 256, (s.generation + 4 * 4) % 256,
      (s.generation + 4 * 5) % 256] hnd
  rw [List.map_cons, List.map_cons, List.map_cons, List.map_cons, List.map_cons,
    List.map_nil, List.sum_cons, List.sum_cons, List.sum_cons, List.sum_cons,
    List.sum_cons, List.sum_nil] at hsum
  beta_reduce at hsum
  have hlen := sampledRecords_length_le s hcl
  have c1 := hbounds 1 (by omega) (by omega)
  have c2 := hbounds 2 (by omega) (by omega)
  have c3 := hbounds 3 (by omega) (by omega)
  have c4 := hbounds 4 (by omega) (by omega)
  have c5 := hbounds 5 (by omega) (by omega)
  rw [hpred] at c1 c2 c3 c4 c5
  omega

/-- Full characterisation of the `new_search` loop: it runs `k ≥ 1`
iterations (capped by the fuel), each advancing the generation by
`0b100` modulo 256; every generation tried before the last had at
least `N = 128` staled sampled records, and the final one has fewer
than 128 unless the fuel ran out. -/
theorem newSearchAux_spec :
    ∀ (fuel : Nat) (s : TtState),
      ∃ k, 1 ≤ k ∧ k ≤ fuel + 1 ∧
        newSearchAux fuel s = { s with generation := (s.generation + 4 * k) % 256 } ∧
        (staledCount s ((s.generation + 4 * k) % 256) < 128 ∨ k = fuel + 1) ∧
        ∀ j, 1 ≤ j → j < k → 128 ≤ staledCount s ((s.generation + 4 * j) % 256) := by
  intro fuel
  induction fuel with
  | zero =>
    intro s
    refine ⟨1, le_refl 1, le_refl 1, ?_, Or.inr rfl, fun j h1 h2 => absurd h2 (by omega)⟩
    have h0 : newSearchAux 0 s =
        if staledCount { s with generation := (s.generation + 4) % 256 }
            ({ s with generation := (s.generation + 4) % 256 } : TtState).generation < 128
          then { s with generation := (s.generation + 4) % 256 }
          else { s with generation := (s.generation + 4) % 256 } := rfl
    rw [h0, ite_self]
  | succ f ih =>
    intro s
    have hgen2 : ({ s with generation := (s.generation + 4) % 256 } : TtState).generation =
        (s.generation + 4) % 256 := rfl
    have hstcg : ∀ g : Nat,
        staledCount { s with generation := (s.generation + 4) % 256 } g = staledCount s g :=
      fun _ => rfl
    by_cases h : staledCount { s with generation := (s.generation + 4) % 256 }
        ((s.generation + 4) % 256) < 128
    · have heq : newSearchAux (f + 1) s = { s with generation := (s.generation + 4) % 256 } := by
        have h0 : newSearchAux (f + 1) s =
            if staledCount { s with generation := (s.generation + 4) % 256 }
                ({ s with generation := (s.generation + 4) % 256 } : TtState).generation < 128
              then { s with generation := (s.generation + 4) % 256 }
              else newSearchAux f { s with generation := (s.generation + 4) % 256 } := rfl
        rw [h0, hgen2, if_pos h]
      refine ⟨1, le_refl 1, by omega, ?_, Or.inl ?_, fun j h1 h2 => absurd h2 (by omega)⟩
      · rw [heq]
      · rw [hstcg] at h
        have hg : (s.generation + 4 * 1) % 256 = (s.generation + 4) % 256 := by omega
        rw [hg]
        exact h
    · have heq : newSearchAux (f + 1) s =
          newSearchAux f { s with generation := (s.generation + 4) % 256 } := by
        have h0 : newSearchAux (f + 1) s =
            if staledCount { s with generation := (s.generation + 4) % 256 }
                ({ s with generation := (s.generation + 4) % 256 } : TtState).generation < 128
              then { s with generation := (s.generation + 4) % 256 }
              else newSearchAux f { s with generation := (s.generation + 4) % 256 } := rfl
        rw [h0, hgen2, if_neg h]
      obtain ⟨k2, hk1, hk2, heq2, hdisj, hmin⟩ :=
        ih { s with generation := (s.generation + 4) % 256 }
      have hgarg : ∀ j : Nat, ((s.generation + 4) % 256 + 4 * j) % 256 =
          (s.generation + 4 * (j + 1)) % 256 := by
        intro j
        omega
      refine ⟨k2 + 1, by omega, by omega, ?_, ?_, ?_⟩
      · rw [heq, heq2, hgen2]
        have : ({ { s with generation := (s.generation + 4) % 256 } with
            generation := ((s.generation + 4) % 256 + 4 * k2) % 256 } : TtState) =
            { s with generation := ((s.generation + 4) % 256 + 4 * k2) % 256 } := rfl
        rw [this, hgarg k2]
      · rcases hdisj with hlt | hfuel
        · left
          rw [hstcg, hgen2, hgarg k2] at hlt
          exact hlt
        · right
          omega
      · intro j h1 h2
        match j, h1 with
        | 1, _ =>
          rw [hstcg] at h
          have hg : (s.generation + 4 * 1) % 256 = (s.generation + 4) % 256 := by omega
          rw [hg]
          omega
        | j2 + 2, _ =>
          have := hmin (j2 + 1) (by omega) (by omega)
          rw [hstcg, hgen2, hgarg (j2 + 1)] at this
          exact this

/-- The `new_search` loop terminates within five iterations whenever
every cluster holds at most four records, because at most four of any
five distinct candidate generations can each mark 128 of the at most
512 sampled records. -/
theorem newSearch_run (s : TtState) (hcl : ∀ c ∈ s.table, c.length ≤ 4) :
    ∃ k, 1 ≤ k ∧ k ≤ 5 ∧
      newSearch s = { s with generation := (s.generation + 4 * k) % 256 } ∧
      staledCount s ((s.generation + 4 * k) % 256) < 128 ∧
      ∀ j, 1 ≤ j → j < k → 128 ≤ staledCount s ((s.generation + 4 * j) % 256) := by
  obtain ⟨k, hk1, hk65, heq, hdisj, hmin⟩ := newSearchAux_spec 64 s
  obtain ⟨j, hj1, hj5, hjlt⟩ := staled_candidate_exists s hcl
  have hkj : k ≤ j := by
    by_contra hgt
    push_neg at hgt
    exact absurd (hmin j hj1 hgt) (by omega)
  have hexit : staledCount s ((s.generation + 4 * k) % 256) < 128 := by
    rcases hdisj with h | h
    · exact h
    · omega
  exact ⟨k, hk1, by omega, heq, hexit, hmin⟩

/-- C7: `StdHashTable::new_search` advances the generation counter by
one step (adding `0b100` to the byte, wrapping at 256) on each
iteration; it iterates again exactly while at least 128 of the sampled
records (taken from the first `min 128 clusterCount` clusters) already
carry the newly set generation, and — provided every cluster holds at
most four records — it stops within five steps, at a generation with
fewer than 128 staled sampled records. -/
theorem newSearch_spec (s : TtState) (hcl : ∀ c ∈ s.table, c.length ≤ 4) :
    ∃ k, 1 ≤ k ∧ k ≤ 5 ∧
      newSearch s = { s with generation := (s.generation + 4 * k) % 256 } ∧
      staledCount s ((s.generation + 4 * k) % 256) < 128 ∧
      ∀ j, 1 ≤ j → j < k → 128 ≤ staledCount s ((s.generation + 4 * j) % 256) :=
  newSearch_run s hcl

theorem newSearch_spec_witness :
    ∃ k, 1 ≤ k ∧ k ≤ 5 ∧
      newSearch (TtState.mk 0 1 [[emptyRecord, emptyRecord, emptyRecord, emptyRecord]]) =
        { TtState.mk 0 1 [[emptyRecord, emptyRecord, emptyRecord, emptyRecord]] with
            generation := ((TtState.mk 0 1
              [[emptyRecord, emptyRecord, emptyRecord, emptyRecord]]).generation + 4 * k) % 256 } ∧
      staledCount (TtState.mk 0 1 [[emptyRecord, emptyRecord, emptyRecord, emptyRecord]])
          (((TtState.mk 0 1
            [[emptyRecord, emptyRecord, emptyRecord, emptyRecord]]).generation + 4 * k) % 256) < 128 ∧
      ∀ j, 1 ≤ j → j < k →
        128 ≤ staledCount (TtState.mk 0 1 [[emptyRecord, emptyRecord, emptyRecord, emptyRecord]])
          (((TtState.mk 0 1
            [[emptyRecord, emptyRecord, emptyRecord, emptyRecord]]).generation + 4 * j) % 256) :=
  newSearch_spec (TtState.mk 0 1 [[emptyRecord, emptyRecord, emptyRecord, emptyRecord]])
    (by decide)

/-! ### The slot chosen by `store` and the record found by `probe` -/

/-- The slot-choice loop always stays in range, and every slot strictly
before the chosen one is occupied by a foreign record (its key is
non-zero and does not match the stored key). -/
theorem friGo_spec (gen key : Nat) :
    ∀ (l : List Record) (i bestIdx : Nat) (bestScore : Int),
      bestIdx < i + l.length →
      (friGo gen key l i bestIdx bestScore).1 < i + l.length ∧
      ((friGo gen key l i bestIdx bestScore).2 = true →
        ∃ j, j < l.length ∧ (friGo gen key l i bestIdx bestScore).1 = i + j ∧
          ∀ j2, j2 < j → ¬((l.getD j2 emptyRecord).key = 0 ∨
            (l.getD j2 emptyRecord).key ^^^ (l.getD j2 emptyRecord).data.asU64 = key)) ∧
      ((friGo gen key l i bestIdx bestScore).2 = false →
        ∀ j, j < l.length → ¬((l.getD j emptyRecord).key = 0 ∨
          (l.getD j emptyRecord).key ^^^ (l.getD j emptyRecord).data.asU64 = key)) := by
  intro l
  induction l with
  | nil =>
    intro i bestIdx bestScore hb
    refine ⟨by simpa using hb, ?_, ?_⟩
    · intro h
      simp [friGo] at h
    · intro _ j hj
      simp at hj
  | cons r rest ih =>
    intro i bestIdx bestScore hb
    by_cases h1 : r.key = 0 ∨ r.key ^^^ r.data.asU64 = key
    · have hfr : friGo gen key (r :: rest) i bestIdx bestScore = (i, true) := by
        rw [friGo, if_pos h1]
      rw [hfr]
      refine ⟨by simp, ?_, ?_⟩
      · intro _
        exact ⟨0, by simp, by simp, fun j2 hj2 => absurd hj2 (by omega)⟩
      · intro hfalse
        simp at hfalse
    · have hstep : ∀ j2 : Nat, j2 < rest.length + 1 →
          (¬((rest.getD (j2 - 1) emptyRecord).key = 0 ∨
              (rest.getD (j2 - 1) emptyRecord).key ^^^
                (rest.getD (j2 - 1) emptyRecord).data.asU64 = key) ∨ j2 = 0) →
          ¬(((r :: rest).getD j2 emptyRecord).key = 0 ∨
            ((r :: rest).getD j2 emptyRecord).key ^^^
              ((r :: rest).getD j2 emptyRecord).data.asU64 = key) := by
        intro j2 hj2 hcase
        match j2 with
        | 0 => simpa using h1
        | j3 + 1 =>
          rcases hcase with hc | hc
          · simpa using hc
          · omega
      by_cases h2 : calcScore gen r < bestScore
      · have hfr : friGo gen key (r :: rest) i bestIdx bestScore =
            friGo gen key rest (i + 1) i (calcScore gen r) := by
          rw [friGo, if_neg h1, if_pos h2]
        rw [hfr]
        obtain ⟨ha, hbrk, hnob⟩ := ih (i + 1) i (calcScore gen r) (by omega)
        refine ⟨by rw [List.length_cons]; omega, ?_, ?_⟩
        · intro ht
          obtain ⟨j, hj, heq, hclean⟩ := hbrk ht
          refine ⟨j + 1, by simpa using Nat.succ_lt_succ hj, by omega, ?_⟩
          intro j2 hj2
          refine hstep j2 (by omega) ?_
          match j2 with
          | 0 => exact Or.inr rfl
          | j3 + 1 =>
            refine Or.inl ?_
            simpa using hclean j3 (by omega)
        · intro hf j hj
          refine hstep j (by simpa using hj) ?_
          match j with
          | 0 => exact Or.inr rfl
          | j3 + 1 =>
            refine Or.inl ?_
            simpa using hnob hf j3 (by simpa using Nat.lt_of_succ_lt_succ hj)
      · have hfr : friGo gen key (r :: rest) i bestIdx bestScore =
            friGo gen key rest (i + 1) bestIdx bestScore := by
          rw [friGo, if_neg h1, if_neg h2]
        rw [hfr]
        obtain ⟨ha, hbrk, hnob⟩ := ih (i + 1) bestIdx bestScore
          (by rw [List.length_cons] at hb; omega)
        refine ⟨by rw [List.length_cons]; omega, ?_, ?_⟩
        · intro ht
          obtain ⟨j, hj, heq, hclean⟩ := hbrk ht
          refine ⟨j + 1, by simpa using Nat.succ_lt_succ hj, by omega, ?_⟩
          intro j2 hj2
          refine hstep j2 (by omega) ?_
          match j2 with
          | 0 => exact Or.inr rfl
          | j3 + 1 =>
            refine Or.inl ?_
            simpa using hclean j3 (by omega)
        · intro hf j hj
          refine hstep j (by simpa using hj) ?_
          match j with
          | 0 => exact Or.inr rfl
          | j3 + 1 =>
            refine Or.inl ?_
            simpa using hnob hf j3 (by simpa using Nat.lt_of_succ_lt_succ hj)

/-- `probe`'s scan returns the payload of the first key-matching
record, with its generation refreshed in place. -/
theorem probeList_first_match (gen key : Nat) :
    ∀ (l : List Record) (k : Nat), k < l.length →
      (l.getD k emptyRecord).key ^^^ (l.getD k emptyRecord).data.asU64 = key →
      (∀ j, j < k → (l.getD j emptyRecord).key ^^^ (l.getD j emptyRecord).data.asU64 ≠ key) →
      probeList gen key l = (some ((l.getD k emptyRecord).setGeneration gen).data,
        l.set k ((l.getD k emptyRecord).setGeneration gen)) := by
  intro l
  induction l with
  | nil =>
    intro k hk
    simp at hk
  | cons r rest ih =>
    intro k hk hmatch hclean
    match k with
    | 0 =>
      simp only [List.getD_cons_zero] at hmatch ⊢
      rw [probeList, if_pos hmatch]
      simp [List.set]
    | k2 + 1 =>
      have hr : r.key ^^^ r.data.asU64 ≠ key := by
        simpa using hclean 0 (by omega)
      rw [probeList, if_neg hr]
      have hrec := ih k2 (by simpa using Nat.lt_of_succ_lt_succ hk)
        (by simpa using hmatch)
        (fun j hj => by simpa using hclean (j + 1) (by omega))
      rw [hrec]
      simp [List.set]

theorem store_table (s : TtState) (key : Nat) (e : TtEntry) :
    (store s key e).table = s.table.set (clusterIndex s key)
      ((s.table.getD (clusterIndex s key) []).set
        (findReplaceIndex s.generation key (s.table.getD (clusterIndex s key) [])).1
        { key := key ^^^ (storeData2 s key e).asU64, data := storeData2 s key e }) := rfl

theorem store_generation (s : TtState) (key : Nat) (e : TtEntry) :
    (store s key e).generation = s.generation := rfl

theorem store_clusterCount (s : TtState) (key : Nat) (e : TtEntry) :
    (store s key e).clusterCount = s.clusterCount := rfl

theorem storeData2_genBound (s : TtState) (key : Nat) (e : TtEntry) :
    (storeData2 s key e).genBound = s.generation ||| (e.genBound &&& 0b11) := by
  simp only [storeData2]
  split <;> rfl

theorem storeData2_fields (s : TtState) (key : Nat) (e : TtEntry) :
    (storeData2 s key e).value = e.value ∧ (storeData2 s key e).depth = e.depth ∧
      (storeData2 s key e).staticEval = e.staticEval := by
  simp only [storeData2]
  split <;> exact ⟨rfl, rfl, rfl⟩

theorem storeData2_moveDigest (s : TtState) (key : Nat) (e : TtEntry)
    (h : e.moveDigest ≠ 0) : (storeData2 s key e).moveDigest = e.moveDigest := by
  simp only [storeData2]
  split
  · rename_i hcond
    exact absurd hcond.1 h
  · rfl

/-- After `store s key e`, probing the table for `key` at any current
generation `g2` finds the freshly written record first and returns its
payload: `e` with generation `g2` installed and the move digest that
`store` wrote; the written record key-matches and carries the
generation of the `store`. -/
theorem probe_after_store (s : TtState) (key : Nat) (e : TtEntry) (g2 : Nat)
    (hpow : ∃ m, s.clusterCount = 2 ^ m)
    (hlen : s.table.length = s.clusterCount)
    (hcl : ∀ c ∈ s.table, c.length = 4)
    (hgen4 : s.generation &&& 0b11 = 0) :
    (probe { store s key e with generation := g2 } key).1 =
      some { e with genBound := g2 ||| (e.genBound &&& 0b11),
                    moveDigest := (storeData2 s key e).moveDigest } ∧
    ∃ r ∈ (store s key e).table.getD (clusterIndex s key) [],
      r.key ^^^ r.data.asU64 = key ∧
      r.data.genBound = s.generation ||| (e.genBound &&& 0b11) := by
  obtain ⟨m, hm⟩ := hpow
  have hci : clusterIndex s key < s.table.length := by
    unfold clusterIndex
    rw [hlen, hm, Nat.and_pow_two_sub_one_eq_mod]
    exact Nat.mod_lt _ (Nat.two_pow_pos m)
  have hcll : (s.table.getD (clusterIndex s key) []).length = 4 := by
    refine hcl _ ?_
    rw [List.getD_eq_getElem _ [] hci]
    exact List.getElem_mem hci
  obtain ⟨hrange, hbrk, hnob⟩ := friGo_spec s.generation key
    (s.table.getD (clusterIndex s key) []) 0 0 9223372036854775807 (by omega)
  have hfr1 : (findReplaceIndex s.generation key (s.table.getD (clusterIndex s key) [])).1 <
      (s.table.getD (clusterIndex s key) []).length := by
    simpa [findReplaceIndex] using hrange
  have hclean : ∀ j,
      j < (findReplaceIndex s.generation key (s.table.getD (clusterIndex s key) [])).1 →
      ((s.table.getD (clusterIndex s key) []).getD j emptyRecord).key ^^^
        ((s.table.getD (clusterIndex s key) []).getD j emptyRecord).data.asU64 ≠ key := by
    intro j hj
    rcases hb2 : (findReplaceIndex s.generation key (s.table.getD (clusterIndex s key) [])).2 with
      _ | _
    · have := hnob (by simpa [findReplaceIndex] using hb2) j (by omega)
      tauto
    · obtain ⟨j0, hj0len, hj0eq, hj0clean⟩ := hbrk (by simpa [findReplaceIndex] using hb2)
      have hj0' : (findReplaceIndex s.generation key
          (s.table.getD (clusterIndex s key) [])).1 = j0 := by
        simpa [findReplaceIndex] using hj0eq
      have := hj0clean j (by omega)
      tauto
  have hnewtab : ({ store s key e with generation := g2 } : TtState).table =
      (store s key e).table := rfl
  have hnewci : clusterIndex { store s key e with generation := g2 } key =
      clusterIndex s key := rfl
  have hnewgen : ({ store s key e with generation := g2 } : TtState).generation = g2 := rfl
  have hcluster2 : (store s key e).table.getD (clusterIndex s key) [] =
      (s.table.getD (clusterIndex s key) []).set
        (findReplaceIndex s.generation key (s.table.getD (clusterIndex s key) [])).1
        { key := key ^^^ (storeData2 s key e).asU64, data := storeData2 s key e } := by
    rw [store_table]
    exact getD_set_self2 _ _ _ _ hci
  have hprobe1 : (probe { store s key e with generation := g2 } key).1 =
      (probeList g2 key ((store s key e).table.getD (clusterIndex s key) [])).1 := rfl
  have hsetlen : ((store s key e).table.getD (clusterIndex s key) []).length =
      (s.table.getD (clusterIndex s key) []).length := by
    rw [hcluster2, List.length_set]
  have hat : ((store s key e).table.getD (clusterIndex s key) []).getD
      (findReplaceIndex s.generation key (s.table.getD (clusterIndex s key) [])).1
      emptyRecord =
      { key := key ^^^ (storeData2 s key e).asU64, data := storeData2 s key e } := by
    rw [hcluster2]
    exact getD_set_self2 _ _ _ _ hfr1
  have hne : ∀ j,
      j < (findReplaceIndex s.generation key (s.table.getD (clusterIndex s key) [])).1 →
      ((store s key e).table.getD (clusterIndex s key) []).getD j emptyRecord =
        (s.table.getD (clusterIndex s key) []).getD j emptyRecord := by
    intro j hj
    rw [hcluster2]
    exact getD_set_ne2 _ _ _ _ _ (by omega)
  have hmatch : (((store s key e).table.getD (clusterIndex s key) []).getD
      (findReplaceIndex s.generation key (s.table.getD (clusterIndex s key) [])).1
      emptyRecord).key ^^^
      (((store s key e).table.getD (clusterIndex s key) []).getD
        (findReplaceIndex s.generation key (s.table.getD (clusterIndex s key) [])).1
        emptyRecord).data.asU64 = key := by
    rw [hat]
    exact Nat.xor_cancel_right _ _
  have hfound := probeList_first_match g2 key
    ((store s key e).table.getD (clusterIndex s key) [])
    (findReplaceIndex s.generation key (s.table.getD (clusterIndex s key) [])).1
    (by omega) hmatch
    (fun j hj => by rw [hne j hj]; exact hclean j hj)
  constructor
  · rw [hprobe1, hfound]
    rw [hat]
    show some ((Record.setGeneration _ g2).data) = _
    unfold Record.setGeneration
    obtain ⟨hv, hd, hs⟩ := storeData2_fields s key e
    have hb4 : e.genBound &&& 0b11 < 4 := by
      rw [and_three_eq_mod]
      omega
    have hgb : (storeData2 s key e).genBound &&& 0b11 = e.genBound &&& 0b11 := by
      rw [storeData2_genBound]
      exact or_low_bound _ _ hgen4 hb4
    show some { storeData2 s key e with
        genBound := g2 ||| ((storeData2 s key e).genBound &&& 0b11) } = _
    rw [hgb]
    have : ({ storeData2 s key e with genBound := g2 ||| (e.genBound &&& 0b11) } : TtEntry) =
        { e with genBound := g2 ||| (e.genBound &&& 0b11),
                 moveDigest := (storeData2 s key e).moveDigest } := by
      cases hsd : storeData2 s key e with
      | mk v g d md se =>
        rw [hsd] at hv hd hs
        simp only [TtEntry.mk.injEq] at hv hd hs ⊢
        exact ⟨hv, by trivial, hd, by trivial, hs⟩
    rw [this]
  · refine ⟨{ key := key ^^^ (storeData2 s key e).asU64, data := storeData2 s key e }, ?_, ?_, ?_⟩
    · have hlt2 : (findReplaceIndex s.generation key (s.table.getD (clusterIndex s key) [])).1 <
          ((store s key e).table.getD (clusterIndex s key) []).length := by omega
      rw [← hat, List.getD_eq_getElem _ emptyRecord hlt2]
      exact List.mem_iff_getElem.mpr ⟨_, hlt2, rfl⟩
    · exact Nat.xor_cancel_right _ _
    · exact storeData2_genBound s key e

/-- C2 counterexample: storing an entry whose move digest is 0 over a
slot that already holds the same key preserves the old digest, so the
probed entry is *not* `e` with only the generation refreshed: every
such entry would keep `e`'s move digest 0, but the probe returns move
digest 5 (inherited from the previous entry for that key). -/
theorem store_probe_counterexample :
    ∃ p, (probe (store (store
          (TtState.mk 0 1 [[emptyRecord, emptyRecord, emptyRecord, emptyRecord]])
          1 (TtEntry.mk 7 1 3 5 2)) 1 (TtEntry.mk 9 1 4 0 6)) 1).1 = some p ∧
      p.moveDigest ≠ (TtEntry.mk 9 1 4 0 6).moveDigest ∧
      p.value = (TtEntry.mk 9 1 4 0 6).value ∧
      p.depth = (TtEntry.mk 9 1 4 0 6).depth :=
  ⟨TtEntry.mk 9 1 4 5 6, by decide, by decide, by decide, by decide⟩

/-- C2 (amended): immediately after `store s key e` on a well-formed
table, `probe key` returns `e` with its generation refreshed to the
current one and with a move digest `d` that equals `e`'s whenever `e`'s
digest is valid (a zero digest may be replaced by the slot's previous
digest); after `new_search` advances the generation, `probe key` still
returns the same payload (refreshed to the new generation), while the
stored record's own generation is no longer the current one, so it
counts as aged for replacement purposes. -/
theorem store_probe_refreshed (s : TtState) (key : Nat) (e : TtEntry)
    (hpow : ∃ m, s.clusterCount = 2 ^ m)
    (hlen : s.table.length = s.clusterCount)
    (hcl : ∀ c ∈ s.table, c.length = 4)
    (hgen : s.generation < 256)
    (hgen4 : s.generation &&& 0b11 = 0) :
    ∃ d : Nat,
      (e.moveDigest ≠ 0 → d = e.moveDigest) ∧
      (probe (store s key e) key).1 =
        some { e with genBound := s.generation ||| (e.genBound &&& 0b11), moveDigest := d } ∧
      (newSearch (store s key e)).generation ≠ s.generation ∧
      (probe (newSearch (store s key e)) key).1 =
        some { e with
          genBound := (newSearch (store s key e)).generation ||| (e.genBound &&& 0b11),
          moveDigest := d } ∧
      ∃ r ∈ (newSearch (store s key e)).table.getD (clusterIndex s key) [],
        r.key ^^^ r.data.asU64 = key ∧
        r.generation ≠ (newSearch (store s key e)).generation := by
  obtain ⟨hA, hrec⟩ := probe_after_store s key e s.generation hpow hlen hcl hgen4
  have hid : ({ store s key e with generation := s.generation } : TtState) =
      store s key e := rfl
  rw [hid] at hA
  obtain ⟨m, hm⟩ := hpow
  have hci : clusterIndex s key < s.table.length := by
    unfold clusterIndex
    rw [hlen, hm, Nat.and_pow_two_sub_one_eq_mod]
    exact Nat.mod_lt _ (Nat.two_pow_pos m)
  have hcll : (s.table.getD (clusterIndex s key) []).length = 4 := by
    refine hcl _ ?_
    rw [List.getD_eq_getElem _ [] hci]
    exact List.mem_iff_getElem.mpr ⟨_, hci, rfl⟩
  have hclt : ∀ c ∈ (store s key e).table, c.length ≤ 4 := by
    intro c hc
    rw [store_table] at hc
    rcases List.mem_or_eq_of_mem_set hc with h | h
    · exact le_of_eq (hcl c h)
    · rw [h, List.length_set]
      omega
  obtain ⟨k, hk1, hk5, hns, _, _⟩ := newSearch_run (store s key e) hclt
  have hgenN : (newSearch (store s key e)).generation = (s.generation + 4 * k) % 256 := by
    rw [hns]
    rfl
  have hneq : (newSearch (store s key e)).generation ≠ s.generation := by
    rw [hgenN]
    omega
  have hnsB : newSearch (store s key e) =
      { store s key e with generation := (s.generation + 4 * k) % 256 } := by
    rw [hns]
    rfl
  obtain ⟨hB, _⟩ := probe_after_store s key e ((s.generation + 4 * k) % 256)
    ⟨m, hm⟩ hlen hcl hgen4
  refine ⟨(storeData2 s key e).moveDigest, storeData2_moveDigest s key e, hA, hneq, ?_, ?_⟩
  · rw [hgenN, hnsB]
    exact hB
  · obtain ⟨r, hrmem, hrkey, hrgb⟩ := hrec
    refine ⟨r, ?_, hrkey, ?_⟩
    · have htab2 : (newSearch (store s key e)).table = (store s key e).table := by
        rw [hnsB]
      rw [htab2]
      exact hrmem
    · have hb4 : e.genBound &&& 0b11 < 4 := by
        rw [and_three_eq_mod]
        omega
      have hrg : r.generation = s.generation := by
        unfold Record.generation
        rw [hrgb]
        exact or_low_generation _ _ hgen4 hb4 hgen
      rw [hrg, hgenN]
      omega

theorem store_probe_refreshed_witness :
    ∃ d : Nat,
      ((TtEntry.mk 7 1 3 5 2).moveDigest ≠ 0 → d = (TtEntry.mk 7 1 3 5 2).moveDigest) ∧
      (probe (store (TtState.mk 0 1 [[emptyRecord, emptyRecord, emptyRecord, emptyRecord]])
          1 (TtEntry.mk 7 1 3 5 2)) 1).1 =
        some { TtEntry.mk 7 1 3 5 2 with
          genBound := (TtState.mk 0 1
              [[emptyRecord, emptyRecord, emptyRecord, emptyRecord]]).generation |||
            ((TtEntry.mk 7 1 3 5 2).genBound &&& 0b11),
          moveDigest := d } ∧
      (newSearch (store (TtState.mk 0 1 [[emptyRecord, emptyRecord, emptyRecord, emptyRecord]])
          1 (TtEntry.mk 7 1 3 5 2))).generation ≠
        (TtState.mk 0 1 [[emptyRecord, emptyRecord, emptyRecord, emptyRecord]]).generation ∧
      (probe (newSearch (store
          (TtState.mk 0 1 [[emptyRecord, emptyRecord, emptyRecord, emptyRecord]])
          1 (TtEntry.mk 7 1 3 5 2))) 1).1 =
        some { TtEntry.mk 7 1 3 5 2 with
          genBound := (newSearch (store
              (TtState.mk 0 1 [[emptyRecord, emptyRecord, emptyRecord, emptyRecord]])
              1 (TtEntry.mk 7 1 3 5 2))).generation |||
            ((TtEntry.mk 7 1 3 5 2).genBound &&& 0b11),
          moveDigest := d } ∧
      ∃ r ∈ (newSearch (store
          (TtState.mk 0 1 [[emptyRecord, emptyRecord, emptyRecord, emptyRecord]])
          1 (TtEntry.mk 7 1 3 5 2))).table.getD
          (clusterIndex (TtState.mk 0 1 [[emptyRecord, emptyRecord, emptyRecord, emptyRecord]])
            1) [],
        r.key ^^^ r.data.asU64 = 1 ∧
        r.generation ≠ (newSearch (store
          (TtState.mk 0 1 [[emptyRecord, emptyRecord, emptyRecord, emptyRecord]])
          1 (TtEntry.mk 7 1 3 5 2))).generation :=
  store_probe_refreshed (TtState.mk 0 1 [[emptyRecord, emptyRecord, emptyRecord, emptyRecord]])
    1 (TtEntry.mk 7 1 3 5 2) ⟨0, by decide⟩ (by decide) (by decide) (by decide) (by decide)

end Alcibiades
